import Mathlib

set_option maxHeartbeats 1000000

/-!
# Verification of the educational-mode math pipeline

Shallow embedding of the repository's five near-identical pipeline handlers
(`src/api/pipeline.js`, `src/netlify/functions/pipeline.js`, the three unnamed
variants) and of the local arithmetic evaluator `tryEvaluate`, together with
proofs settling the specification's testable properties.

The arithmetic evaluator in the source sanitizes the OCR text to the character
set [0-9+\-*/().\s], strips whitespace, and evaluates the result as a strict
mode JavaScript expression wrapped as return( clean ).  The JavaScript
evaluation is modelled here by a maximal-munch lexer over the sanitized
character set (including the multi-character JavaScript tokens "++", "--",
"**" that maximal munch produces, the strict-mode ban on numeric literals with
leading zeros, and "//" starting a comment, which always leaves the generated
return statement unterminated) and a recursive-descent parser for the
JavaScript additive / multiplicative / unary / primary expression grammar.
Arithmetic is modelled exactly over ℚ; division by zero produces the
JavaScript special values (Infinity / -Infinity / NaN), which the source's
Number.isFinite guard turns into null.  Where the engine's binary64 value
can differ from the exact rational value — IEEE-754 rounding, the
exponentiation token "**" (whose fractional powers leave ℚ, modelled as a
parse failure), "/*" block comments — no claim proved below depends on the
numeric value: the claims about null-ness, finiteness and sanitization
invariance hold under any number semantics, and the one exactness claim
(C3, as amended) quantifies only over expressions of the spec grammar —
whose well-formed strings use single-character operators only, so the
multi-character tokens cannot occur — all of whose numeric literals and
intermediate results are exactly representable finite binary64 doubles
(decided by `isRep`); on such values each correctly rounded binary64
operation returns its exact rational result, so binary64 evaluation
coincides step by step with the exact evaluation modelled here.
-/

namespace EducationalMode

/-! ## Character classes of the sanitizer regexes -/

/-- The characters matched by the JavaScript regex class `\s`. -/
def jsIsSpace (c : Char) : Bool :=
  [0x9, 0xA, 0xB, 0xC, 0xD, 0x20, 0xA0, 0x1680,
   0x2000, 0x2001, 0x2002, 0x2003, 0x2004, 0x2005, 0x2006, 0x2007,
   0x2008, 0x2009, 0x200A, 0x2028, 0x2029, 0x202F, 0x205F, 0x3000,
   0xFEFF].contains c.toNat

/-- The characters kept by the first sanitizer regex `[^0-9+\-*\/().\s]`. -/
def isKeptChar (c : Char) : Bool :=
  c.isDigit || ['+', '-', '*', '/', '(', ')', '.'].contains c || jsIsSpace c

/-- `expr.replace(/[^0-9+\-*\/().\s]/g, "").replace(/\s+/g, "")`:
the cleaned character list fed to the JavaScript evaluator. -/
def cleanChars (l : List Char) : List Char :=
  (l.filter isKeptChar).filter (fun c => !jsIsSpace c)

/-! ## JavaScript numbers

Finite values are exact rationals; Infinity, -Infinity and NaN are the
JavaScript special values that the `Number.isFinite` guard maps to null. -/

inductive JsNum where
  | fin (q : ℚ)
  | inf
  | ninf
  | nan
  deriving DecidableEq

def JsNum.neg : JsNum → JsNum
  | fin q => fin (-q)
  | inf => ninf
  | ninf => inf
  | nan => nan

def JsNum.add : JsNum → JsNum → JsNum
  | fin a, fin b => fin (a + b)
  | nan, _ => nan
  | _, nan => nan
  | inf, ninf => nan
  | ninf, inf => nan
  | inf, _ => inf
  | _, inf => inf
  | ninf, _ => ninf
  | _, ninf => ninf

def JsNum.sub (a b : JsNum) : JsNum := a.add b.neg

def JsNum.mul : JsNum → JsNum → JsNum
  | fin a, fin b => fin (a * b)
  | nan, _ => nan
  | _, nan => nan
  | inf, fin b => if b = 0 then nan else if 0 < b then inf else ninf
  | fin a, inf => if a = 0 then nan else if 0 < a then inf else ninf
  | ninf, fin b => if b = 0 then nan else if 0 < b then ninf else inf
  | fin a, ninf => if a = 0 then nan else if 0 < a then ninf else inf
  | inf, inf => inf
  | ninf, ninf => inf
  | inf, ninf => ninf
  | ninf, inf => ninf

def JsNum.div : JsNum → JsNum → JsNum
  | fin a, fin b =>
    if b = 0 then (if a = 0 then nan else if 0 < a then inf else ninf)
    else fin (a / b)
  | nan, _ => nan
  | _, nan => nan
  | fin _, inf => fin 0
  | fin _, ninf => fin 0
  | inf, fin b => if 0 ≤ b then inf else ninf
  | ninf, fin b => if 0 ≤ b then ninf else inf
  | inf, inf => nan
  | inf, ninf => nan
  | ninf, inf => nan
  | ninf, ninf => nan

/-! ## Maximal-munch lexer for the sanitized character set -/

inductive Tok where
  | num (q : ℚ)
  | plus
  | minus
  | star
  | slash
  | lparen
  | rparen
  | plusplus
  | minusminus
  | starstar
  deriving DecidableEq

def digitsVal (ds : List Char) : ℕ :=
  ds.foldl (fun a c => 10 * a + (c.toNat - 48)) 0

def litVal (ip fp : List Char) : ℚ :=
  (digitsVal ip : ℚ) + (digitsVal fp : ℚ) / ((10 ^ fp.length : ℕ) : ℚ)

/-- Lex one JavaScript numeric literal (digits, optional point, digits; at
least one digit; strict mode rejects multi-digit literals starting with 0). -/
def lexLit (l : List Char) : Option (ℚ × List Char) :=
  match l.dropWhile Char.isDigit with
  | '.' :: r2 =>
    if l.takeWhile Char.isDigit = [] && r2.takeWhile Char.isDigit = [] then none
    else if 2 ≤ (l.takeWhile Char.isDigit).length &&
        (l.takeWhile Char.isDigit).head? = some '0' then none
    else some (litVal (l.takeWhile Char.isDigit) (r2.takeWhile Char.isDigit),
        r2.dropWhile Char.isDigit)
  | _ =>
    if l.takeWhile Char.isDigit = [] then none
    else if 2 ≤ (l.takeWhile Char.isDigit).length &&
        (l.takeWhile Char.isDigit).head? = some '0' then none
    else some (litVal (l.takeWhile Char.isDigit) [], l.dropWhile Char.isDigit)

theorem lexLit_length {l r : List Char} {q : ℚ} (h : lexLit l = some (q, r)) :
    r.length < l.length := by
  have hsplit : (l.takeWhile Char.isDigit).length + (l.dropWhile Char.isDigit).length
      = l.length := by
    rw [← List.length_append, List.takeWhile_append_dropWhile]
  unfold lexLit at h
  revert h
  split
  · next r2 hr2 =>
    intro h
    have hr2len : (l.dropWhile Char.isDigit).length = r2.length + 1 := by
      rw [hr2]; rfl
    have h1 : (r2.dropWhile Char.isDigit).length ≤ r2.length :=
      (List.dropWhile_sublist _).length_le
    split at h
    · exact absurd h (by simp)
    · split at h
      · exact absurd h (by simp)
      · simp only [Option.some.injEq, Prod.mk.injEq] at h
        obtain ⟨-, hr⟩ := h
        subst hr
        omega
  · next hne =>
    intro h
    split at h
    · exact absurd h (by simp)
    · split at h
      · exact absurd h (by simp)
      · next hip _ =>
        simp only [Option.some.injEq, Prod.mk.injEq] at h
        obtain ⟨-, hr⟩ := h
        have h3 : l.takeWhile Char.isDigit ≠ [] := by
          intro hcon; simp [hcon] at hip
        have h4 : 0 < (l.takeWhile Char.isDigit).length := List.length_pos.mpr h3
        subst hr
        omega

/-- Maximal-munch lexer over the cleaned characters, with explicit fuel so
that it is a structural recursion the kernel can evaluate.  Adjacent
identical sign characters lex to the JavaScript update / exponentiation
tokens; "//" starts a comment that swallows the closing parenthesis of the
generated return statement, hence always a syntax error, modelled as lexical
failure.  Two constructs are outside the model's value semantics: the
exponentiation operator "**" (whose fractional powers leave ℚ) and "/*"
block comments; on inputs using them the embedded evaluator returns none
where the engine may compute a number (e.g. "2**3", "1/*2*/+3").  No claim
proved in this file depends on the value of such inputs: the claims about
null-ness, finiteness and sanitization invariance are value-independent,
and the amended exactness claim quantifies over the spec grammar, whose
well-formed strings use single-character operators only, so these token
sequences never parse there (see the examples after `specArithValue64`). -/
def lexGo : ℕ → List Char → Option (List Tok)
  | _, [] => some []
  | 0, _ :: _ => none
  | f + 1, '+' :: '+' :: cs => (lexGo f cs).map (Tok.plusplus :: ·)
  | f + 1, '-' :: '-' :: cs => (lexGo f cs).map (Tok.minusminus :: ·)
  | f + 1, '*' :: '*' :: cs => (lexGo f cs).map (Tok.starstar :: ·)
  | _ + 1, '/' :: '/' :: _ => none
  | f + 1, '+' :: cs => (lexGo f cs).map (Tok.plus :: ·)
  | f + 1, '-' :: cs => (lexGo f cs).map (Tok.minus :: ·)
  | f + 1, '*' :: cs => (lexGo f cs).map (Tok.star :: ·)
  | f + 1, '/' :: cs => (lexGo f cs).map (Tok.slash :: ·)
  | f + 1, '(' :: cs => (lexGo f cs).map (Tok.lparen :: ·)
  | f + 1, ')' :: cs => (lexGo f cs).map (Tok.rparen :: ·)
  | f + 1, c :: cs =>
    if c.isDigit || c = '.' then
      match lexLit (c :: cs) with
      | some (q, r) => (lexGo f r).map (Tok.num q :: ·)
      | none => none
    else none

/-- The lexer run with just enough fuel: each step consumes at least one
character, so the character count suffices. -/
def lexChars (l : List Char) : Option (List Tok) := lexGo l.length l

/-! ## Recursive-descent parser for the JavaScript expression grammar -/

mutual

/-- Primary: numeric literal or parenthesized expression. -/
def parseP : ℕ → List Tok → Option (JsNum × List Tok)
  | 0, _ => none
  | _ + 1, Tok.num q :: ts => some (JsNum.fin q, ts)
  | f + 1, Tok.lparen :: ts =>
    match parseE f ts with
    | some (v, Tok.rparen :: ts2) => some (v, ts2)
    | _ => none
  | _ + 1, _ => none

/-- Unary: stacked unary plus / minus applied to a primary. -/
def parseU : ℕ → List Tok → Option (JsNum × List Tok)
  | 0, _ => none
  | f + 1, Tok.plus :: ts => parseU f ts
  | f + 1, Tok.minus :: ts => (parseU f ts).map (fun vr => (vr.1.neg, vr.2))
  | f + 1, ts => parseP f ts

/-- Multiplicative chain, left associative. -/
def parseT : ℕ → List Tok → Option (JsNum × List Tok)
  | 0, _ => none
  | f + 1, ts =>
    match parseU f ts with
    | some (v, r) => parseTLoop f v r
    | none => none

def parseTLoop : ℕ → JsNum → List Tok → Option (JsNum × List Tok)
  | 0, _, _ => none
  | f + 1, acc, Tok.star :: ts =>
    match parseU f ts with
    | some (v, r) => parseTLoop f (acc.mul v) r
    | none => none
  | f + 1, acc, Tok.slash :: ts =>
    match parseU f ts with
    | some (v, r) => parseTLoop f (acc.div v) r
    | none => none
  | _ + 1, acc, ts => some (acc, ts)

/-- Additive chain, left associative. -/
def parseE : ℕ → List Tok → Option (JsNum × List Tok)
  | 0, _ => none
  | f + 1, ts =>
    match parseT f ts with
    | some (v, r) => parseELoop f v r
    | none => none

def parseELoop : ℕ → JsNum → List Tok → Option (JsNum × List Tok)
  | 0, _, _ => none
  | f + 1, acc, Tok.plus :: ts =>
    match parseT f ts with
    | some (v, r) => parseELoop f (acc.add v) r
    | none => none
  | f + 1, acc, Tok.minus :: ts =>
    match parseT f ts with
    | some (v, r) => parseELoop f (acc.sub v) r
    | none => none
  | _ + 1, acc, ts => some (acc, ts)

end

/-- Evaluate a full token stream as one expression (the stream of the
parenthesized return argument); anything left over is a syntax error. -/
def evalTokens (ts : List Tok) : Option JsNum :=
  match parseE (8 * ts.length + 8) ts with
  | some (v, []) => some v
  | _ => none

/-- Evaluate the cleaned characters the way
`Function('"use strict";return(' + clean + ')')()` does: the clean text is
wrapped in parentheses and evaluated as a JavaScript expression. -/
def evalClean (clean : List Char) : Option JsNum :=
  match lexChars ('(' :: (clean ++ [')'])) with
  | some ts => evalTokens ts
  | none => none

/-- `tryEvaluate` from `src/api/pipeline.js` (identical in
`src/unnamed/part_000` and `src/unnamed/part_001`): sanitize, bail out on an
empty clean string, evaluate, and return the value only if it is a finite
number. -/
def tryEvaluate (expr : String) : Option ℚ :=
  let clean := cleanChars expr.data
  if clean = [] then none
  else
    match evalClean clean with
    | some (JsNum.fin q) => some q
    | _ => none

example : tryEvaluate "3*0.5+3*(-1)" = some (-(3/2) : ℚ) := by decide!
example : tryEvaluate "3 - -2" = none := by decide!
example : tryEvaluate "1/0" = none := by decide!
example : tryEvaluate "hello" = none := by decide!
example : tryEvaluate "2 + 2" = some 4 := by decide!
example : tryEvaluate "(1)+(2)" = some 3 := by decide!

/-! ## Requests, environment, upstream oracle and responses

The handlers are pure functions of the inbound request, the process
environment, and an oracle giving the outcome of each upstream fetch; they
return the HTTP response together with the list of upstream calls made. -/

/-- The JavaScript value found in a JSON body field: a string, a boolean, or
some other value of which only truthiness matters to the handlers. -/
inductive JsVal where
  | str (s : String)
  | bool (b : Bool)
  | other (truthy : Bool)
  deriving DecidableEq

def JsVal.truthy : JsVal → Bool
  | str s => !s.data.isEmpty
  | bool b => b
  | other t => t

/-- `p.startsWith(q)` on JavaScript strings. -/
def jsStartsWith (s p : String) : Bool := p.data.isPrefixOf s.data

/-- `s.toLowerCase()` (ASCII; the patterns searched for are ASCII). -/
def lowerStr (s : String) : String := String.mk (s.data.map Char.toLower)

/-- `p` occurs as a contiguous substring of `l`. -/
def listHasInfix (p : List Char) : List Char → Bool
  | [] => p.isEmpty
  | c :: t => p.isPrefixOf (c :: t) || listHasInfix p t

/-- `s.includes(p)`. -/
def jsIncludes (s p : String) : Bool := listHasInfix p.data s.data

/-- `s.trim()`: strip JavaScript whitespace from both ends. -/
def jsTrimList (l : List Char) : List Char :=
  ((l.dropWhile jsIsSpace).reverse.dropWhile jsIsSpace).reverse

def jsTrim (s : String) : String := String.mk (jsTrimList s.data)

/-- `s || d` on strings. -/
def jsOrDefault (s d : String) : String := if s.data.isEmpty then d else s

/-- The outcome of one upstream fetch.  `threw` models a rejected fetch
promise (network error); `ok` is `response.ok`; `jsonOk` is whether
`response.json()` parses; `content` is `choices[0].message.content` when it
is present and a string; `errText` doubles as the failure body text read by
the error paths and as the thrown error's message. -/
structure FetchResult where
  threw : Bool := false
  ok : Bool := true
  jsonOk : Bool := true
  content : Option String := none
  errText : String := ""
  deriving DecidableEq

/-- Outcomes for the at most two OCR attempts and the explanation call. -/
structure Oracle where
  ocr1 : FetchResult := {}
  ocr2 : FetchResult := {}
  explain : FetchResult := {}
  deriving DecidableEq

/-- The process environment variables the handlers read. -/
structure Env where
  OPENROUTER_API_KEY : Option String := none
  GROQ_API_KEY : Option String := none
  deriving DecidableEq

/-- Truthiness of `process.env.X` (absent or empty is falsy). -/
def envTruthy : Option String → Bool
  | none => false
  | some s => !s.data.isEmpty

/-- The parsed JSON request body fields the handlers destructure. -/
structure ReqBody where
  imageDataUrl : Option JsVal := none
  stepByStep : Option JsVal := none
  deriving DecidableEq

/-- An inbound HTTP request: method and parsed JSON body (`none` models a
body that is not valid JSON, which `JSON.parse` / `req.json()` reject). -/
structure Request where
  method : String := "POST"
  body : Option ReqBody := none
  deriving DecidableEq

def imageField : Option ReqBody → Option JsVal
  | none => none
  | some b => b.imageDataUrl

def stepField : Option ReqBody → Option JsVal
  | none => none
  | some b => b.stepByStep

/-- One upstream model call: an OCR (vision) request (`alt` marks the second
attempt / fallback payload) or an explanation request with its user prompt. -/
inductive Call where
  | ocr (alt : Bool) (image : String)
  | explain (userPrompt : String)
  deriving DecidableEq

def Call.isOcr : Call → Bool
  | ocr _ _ => true
  | explain _ => false

/-- The JSON HTTP response produced by a handler, with the fields the various
variants emit (absent fields are `none`; `numeric = some none` is an explicit
JSON `null`). -/
structure Resp where
  status : Nat
  error : Option String := none
  detail : Option String := none
  text : Option String := none
  numeric : Option (Option ℚ) := none
  explanation : Option String := none
  deriving DecidableEq

/-- `t.slice(0, 400)`. -/
def jsSlice400 (s : String) : String := String.mk (s.data.take 400)

/-! ## The handler of `src/api/pipeline.js` -/

/-- The user prompt of the explanation request in `src/api/pipeline.js` and
`src/unnamed/part_001`. -/
def studentPrompt (text : String) : String :=
  "STUDENT INPUT (OCR):\n" ++ text ++
  "\n\nIf it's a single expression, show a short step-by-step solution with key intermediate lines in $$...$$ blocks.\nIf it's student work, briefly point out mistakes and give corrected steps.\nReturn plain text with LaTeX delimiters (no JSON)."

/-- `src/api/pipeline.js` `handler`: method check, image validation,
OpenRouter key check, OCR call, local evaluation, Groq key check,
explanation call.  The `response.json()` reads have no `.catch`, so a body
that fails to parse throws into the outer catch (`pipeline_exception`). -/
def apiHandler (env : Env) (req : Request) (o : Oracle) : Resp × List Call :=
  if req.method ≠ "POST" then
    ({ status := 405, error := some "method_not_allowed" }, [])
  else
    match imageField req.body with
    | some (JsVal.str s) =>
      if jsStartsWith s "data:image/" then
        if !envTruthy env.OPENROUTER_API_KEY then
          ({ status := 500, error := some "missing_openrouter_key" }, [])
        else if o.ocr1.threw then
          ({ status := 500, error := some "pipeline_exception" }, [Call.ocr false s])
        else if !o.ocr1.ok then
          ({ status := 502, error := some "openrouter_failed",
             detail := some (jsSlice400 o.ocr1.errText) }, [Call.ocr false s])
        else if !o.ocr1.jsonOk then
          ({ status := 500, error := some "pipeline_exception" }, [Call.ocr false s])
        else
          let text := (o.ocr1.content.map jsTrim).getD ""
          let numeric := tryEvaluate text
          if !envTruthy env.GROQ_API_KEY then
            ({ status := 500, error := some "missing_groq_key" }, [Call.ocr false s])
          else if o.explain.threw then
            ({ status := 500, error := some "pipeline_exception" },
             [Call.ocr false s, Call.explain (studentPrompt text)])
          else if !o.explain.ok then
            ({ status := 502, error := some "groq_failed",
               detail := some (jsSlice400 o.explain.errText),
               text := some text, numeric := some numeric },
             [Call.ocr false s, Call.explain (studentPrompt text)])
          else if !o.explain.jsonOk then
            ({ status := 500, error := some "pipeline_exception" },
             [Call.ocr false s, Call.explain (studentPrompt text)])
          else
            ({ status := 200, text := some text, numeric := some numeric,
               explanation := some (o.explain.content.getD "") },
             [Call.ocr false s, Call.explain (studentPrompt text)])
      else ({ status := 400, error := some "invalid_image" }, [])
    | _ => ({ status := 400, error := some "invalid_image" }, [])

/-! ## The handler of `src/unnamed/part_001` -/

/-- `isNoImageReply` from `src/unnamed/part_001`. -/
def isNoImageReply (s : String) : Bool :=
  if s.data.isEmpty then true
  else
    jsIncludes (lowerStr s) "provide the image" ||
    jsIncludes (lowerStr s) "no image" ||
    jsIncludes (lowerStr s) "cannot see" ||
    (jsTrim (lowerStr s)).data.isEmpty

def quoteChars : List Char := ['"', Char.ofNat 39, Char.ofNat 96]

/-- `.replace(/^["'`]+|["'`]+$/g, "")` (the class holds the three quote
characters): strip leading and trailing quote runs. -/
def stripEdgeQuotes (l : List Char) : List Char :=
  ((l.dropWhile (quoteChars.contains ·)).reverse.dropWhile (quoteChars.contains ·)).reverse

def isLineTerm (c : Char) : Bool :=
  c = '\n' || c = '\r' || c.toNat = 0x2028 || c.toNat = 0x2029

/-- `.replace(/^\s*Understood!.*$/i, "")` without the `m` flag erases the
whole string exactly when it is whitespace, then "Understood!" (case
insensitive), then a tail free of line terminators; otherwise no match. -/
def stripUnderstood (l : List Char) : List Char :=
  if "understood!".data.isPrefixOf ((l.dropWhile jsIsSpace).map Char.toLower) &&
      ((l.dropWhile jsIsSpace).drop 11).all (fun c => !isLineTerm c)
  then [] else l

/-- The final cleaning at the end of `ocrWithQwen` in part_001. -/
def part001FinalClean (s : String) : String :=
  jsTrim (String.mk (stripUnderstood (stripEdgeQuotes s.data)))

/-- `callOpenRouter` from part_001: throws on a failed response (`none`),
otherwise yields `choices[0].message.content` coerced to a string. -/
def callOpenRouterResult (r : FetchResult) : Option String :=
  if r.threw || !r.ok then none
  else some (if r.jsonOk then r.content.getD "" else "")

/-- `ocrWithQwen` from part_001: attempt with payload A; if the reply is
empty or a "no image" reply, retry once with payload B; clean the winner.
`none` models a thrown exception. -/
def ocrWithQwen (o : Oracle) (img : String) : Option String × List Call :=
  match callOpenRouterResult o.ocr1 with
  | none => (none, [Call.ocr false img])
  | some textA =>
    if isNoImageReply textA then
      match callOpenRouterResult o.ocr2 with
      | none => (none, [Call.ocr false img, Call.ocr true img])
      | some textB =>
        (some (part001FinalClean textB), [Call.ocr false img, Call.ocr true img])
    else (some (part001FinalClean textA), [Call.ocr false img])

/-- `explainWithGroq` from part_001 (`none` models a thrown exception). -/
def explainWithGroq (r : FetchResult) : Option String :=
  if r.threw || !r.ok then none
  else some (if r.jsonOk then r.content.getD "" else "")

/-- The default-export handler of `src/unnamed/part_001`. -/
def part001Handler (env : Env) (req : Request) (o : Oracle) : Resp × List Call :=
  if req.method ≠ "POST" then
    ({ status := 405, error := some "method_not_allowed" }, [])
  else
    match req.body with
    | none => ({ status := 400, error := some "invalid_json" }, [])
    | some b =>
      match b.imageDataUrl with
      | some (JsVal.str s) =>
        if jsStartsWith s "data:image/" then
          if 6000000 < s.data.length then
            ({ status := 413, error := some "image_too_large" }, [])
          else if !envTruthy env.OPENROUTER_API_KEY then
            ({ status := 500, error := some "missing_openrouter_key" }, [])
          else
            match ocrWithQwen o s with
            | (none, calls) =>
              ({ status := 500, error := some "pipeline_exception" }, calls)
            | (some text, calls) =>
              let numeric := tryEvaluate text
              if !envTruthy env.GROQ_API_KEY then
                ({ status := 500, error := some "missing_groq_key" }, calls)
              else
                match explainWithGroq o.explain with
                | none =>
                  ({ status := 500, error := some "pipeline_exception" },
                   calls ++ [Call.explain (studentPrompt text)])
                | some expl =>
                  ({ status := 200, text := some text, numeric := some numeric,
                     explanation := some expl },
                   calls ++ [Call.explain (studentPrompt text)])
        else ({ status := 400, error := some "invalid_image" }, [])
      | _ => ({ status := 400, error := some "invalid_image" }, [])

/-! ## The handler of `src/netlify/functions/pipeline.js` -/

def backtick : Char := Char.ofNat 96

/-- Remove every run of two or more asterisks (`.replace(/\*{2,}/g, "")`). -/
def stripStarRunsGo : ℕ → List Char → List Char
  | 0, l => l
  | _ + 1, [] => []
  | fuel + 1, '*' :: '*' :: cs => stripStarRunsGo fuel (cs.dropWhile (· = '*'))
  | fuel + 1, c :: cs => c :: stripStarRunsGo fuel cs

/-- Split off everything before and after the first run of three backticks. -/
def splitAtTriple : List Char → Option (List Char × List Char)
  | a :: b :: c :: rest =>
    if a = backtick && b = backtick && c = backtick then some ([], rest)
    else
      match splitAtTriple (b :: c :: rest) with
      | some (pre, post) => some (a :: pre, post)
      | none => none
  | _ => none

/-- `.replace(/```([\s\S]*?)```/g, "$1")`: lazy matching pairs consecutive
triple-backtick fences left to right, keeping the inner text; an unpaired
opener matches nothing. -/
def stripFencesGo : ℕ → List Char → List Char
  | 0, l => l
  | fuel + 1, l =>
    match splitAtTriple l with
    | none => l
    | some (pre, rest) =>
      match splitAtTriple rest with
      | none => l
      | some (inner, rest2) => pre ++ inner ++ stripFencesGo fuel rest2

/-- Match `!\[[^\]]*]\([^)]+\)` at the head of the list, returning the
remainder after the match. -/
def matchMdImage : List Char → Option (List Char)
  | '!' :: '[' :: rest =>
    match rest.dropWhile (· ≠ ']') with
    | ']' :: '(' :: r2 =>
      if (r2.takeWhile (· ≠ ')')).isEmpty then none
      else
        match r2.dropWhile (· ≠ ')') with
        | ')' :: r3 => some r3
        | _ => none
    | _ => none
  | _ => none

/-- `.replace(/!\[[^\]]*]\([^)]+\)/g, "")`. -/
def stripMdImagesGo : ℕ → List Char → List Char
  | 0, l => l
  | _ + 1, [] => []
  | fuel + 1, c :: cs =>
    match matchMdImage (c :: cs) with
    | some rest => stripMdImagesGo fuel rest
    | none => c :: stripMdImagesGo fuel cs

/-- `cleanOCR` from `src/netlify/functions/pipeline.js`: strip asterisk
runs, unwrap code fences, drop markdown images, trim. -/
def cleanOCR (s : String) : String :=
  jsTrim (String.mk (stripMdImagesGo
    (stripFencesGo s.data.length (stripStarRunsGo s.data.length s.data)).length
    (stripFencesGo s.data.length (stripStarRunsGo s.data.length s.data))))

/-- Split on runs of two or more newlines (`text.split(/\n{2,}/)`). -/
def splitBlocksGo : ℕ → List Char → List (List Char)
  | 0, _ => [[]]
  | _ + 1, [] => [[]]
  | fuel + 1, '\n' :: '\n' :: cs => [] :: splitBlocksGo fuel (cs.dropWhile (· = '\n'))
  | fuel + 1, c :: cs =>
    match splitBlocksGo fuel cs with
    | [] => [[c]]
    | b :: bs => (c :: b) :: bs

/-- `p.replace(/\n/g, "<br>")`. -/
def brJoin (l : List Char) : List Char :=
  l.foldr (fun c acc => if c = '\n' then '<' :: 'b' :: 'r' :: '>' :: acc else c :: acc) []

def wrapPara (b : List Char) : List Char :=
  '<' :: 'p' :: '>' :: (brJoin b ++ ['<', '/', 'p', '>'])

def joinBlocksHtml : List (List Char) → List Char
  | [] => []
  | [b] => wrapPara b
  | b :: bs => wrapPara b ++ '\n' :: joinBlocksHtml bs

/-- `toFriendlyStepsHtml` from `src/netlify/functions/pipeline.js`:
blank-line-separated blocks become trimmed `<p>` paragraphs joined by
newlines, single newlines become `<br>`. -/
def toFriendlyStepsHtml (text : String) : String :=
  String.mk (joinBlocksHtml
    (((splitBlocksGo text.data.length text.data).map jsTrimList).filter
      (fun b => !b.isEmpty)))

/-- The fixed reply used when the transcript has no math-like content. -/
def noMathMessage : String :=
  "The image does not contain any mathematical expressions or steps."

/-- The regex class `[0-9=+\-×*/()]` of the no-math test. -/
def hasMathChar (s : String) : Bool :=
  s.data.any (fun c => c.isDigit || ['=', '+', '-', '×', '*', '/', '(', ')'].contains c)

/-- Stand-in for the message of the SyntaxError thrown by `JSON.parse` on an
invalid body (exact text is runtime dependent; only its presence matters). -/
def jsonSyntaxErrorMsg : String := "Unexpected token in JSON"

/-- Stand-in for the message of the SyntaxError thrown by `response.json()`
on an unparsable body (exact text is runtime dependent). -/
def jsonBodyErrorMsg : String := "Unexpected end of JSON input"

/-- Stand-in for the TypeError message when `imageDataUrl` is a truthy
non-string and `.startsWith` is called on it (exact text runtime dependent). -/
def startsWithTypeErrorMsg : String := "dataUrl.startsWith is not a function"

/-- `runOCRWithOpenRouter` from the netlify handler: `dataUrlToParts`
requires only the prefix "data:"; a failed response or unparsable body
throws (`Except.error` carries the thrown message). -/
def runOCRWithOpenRouter (o : Oracle) (v : JsVal) : Except String String × List Call :=
  match v with
  | JsVal.str s =>
    if jsStartsWith s "data:" then
      if o.ocr1.threw then (Except.error o.ocr1.errText, [Call.ocr false s])
      else if !o.ocr1.ok then
        (Except.error ("OpenRouter OCR failed: " ++ o.ocr1.errText), [Call.ocr false s])
      else if !o.ocr1.jsonOk then (Except.error jsonBodyErrorMsg, [Call.ocr false s])
      else (Except.ok (cleanOCR (o.ocr1.content.getD "")), [Call.ocr false s])
    else (Except.error "Invalid image data URL", [])
  | _ => (Except.error startsWithTypeErrorMsg, [])

/-- The user prompt built by the netlify `runExplainWithGroq`. -/
def netlifyUserPrompt (stepByStep : Bool) (ocrText : String) : String :=
  if stepByStep then
    "Explain step-by-step the following math work or expression:\n\n" ++ ocrText ++
    "\n\nIf there are errors, correct them and show the right steps clearly."
  else "Explain briefly the following math:\n\n" ++ ocrText

/-- `runExplainWithGroq` from the netlify handler. -/
def runExplainWithGroq (o : Oracle) (stepByStep : Bool) (ocrText : String) :
    Except String String × List Call :=
  if o.explain.threw then
    (Except.error o.explain.errText, [Call.explain (netlifyUserPrompt stepByStep ocrText)])
  else if !o.explain.ok then
    (Except.error ("Groq explain failed: " ++ o.explain.errText),
     [Call.explain (netlifyUserPrompt stepByStep ocrText)])
  else if !o.explain.jsonOk then
    (Except.error jsonBodyErrorMsg, [Call.explain (netlifyUserPrompt stepByStep ocrText)])
  else
    (Except.ok ((o.explain.content.map jsTrim).getD ""),
     [Call.explain (netlifyUserPrompt stepByStep ocrText)])

/-- The destructuring `const { imageDataUrl, stepByStep = true } = body`
followed by the truthiness test of `stepByStep`: the default applies only
when the field is absent (undefined). -/
def stepTruthy : Option JsVal → Bool
  | none => true
  | some v => v.truthy

/-- The exported handler of `src/netlify/functions/pipeline.js`.  It
validates only truthiness of `imageDataUrl`; every thrown error (invalid
data URL, upstream failure, unparsable body, network error) lands in the
outer catch as a 500 with the error's message. -/
def netlifyHandler (_env : Env) (req : Request) (o : Oracle) : Resp × List Call :=
  if req.method ≠ "POST" then
    ({ status := 405, error := some "Method Not Allowed" }, [])
  else
    match req.body with
    | none =>
      ({ status := 500, error := some (jsOrDefault jsonSyntaxErrorMsg "Pipeline error") }, [])
    | some b =>
      match b.imageDataUrl with
      | none => ({ status := 400, error := some "Missing imageDataUrl" }, [])
      | some v =>
        if !v.truthy then ({ status := 400, error := some "Missing imageDataUrl" }, [])
        else
          match runOCRWithOpenRouter o v with
          | (Except.error m, calls) =>
            ({ status := 500, error := some (jsOrDefault m "Pipeline error") }, calls)
          | (Except.ok rawText, calls) =>
            if rawText.data.isEmpty || !hasMathChar rawText then
              ({ status := 200, text := some (jsOrDefault rawText ""),
                 explanation := some (toFriendlyStepsHtml noMathMessage) }, calls)
            else
              match runExplainWithGroq o (stepTruthy b.stepByStep) rawText with
              | (Except.error m, calls2) =>
                ({ status := 500, error := some (jsOrDefault m "Pipeline error") },
                 calls ++ calls2)
              | (Except.ok explanation, calls2) =>
                ({ status := 200, text := some rawText,
                   explanation := some (toFriendlyStepsHtml explanation) },
                 calls ++ calls2)

/-! ## The second handler of `src/unnamed/part_000` (Groq-primary netlify style)

Lines 207 to 384 of `src/unnamed/part_000`: OCR with Groq vision first,
falling back to OpenRouter only when an OPENROUTER_API_KEY is configured,
then the no-math early return, then the Groq text explanation. -/

/-- The image value as it is embedded into the upstream JSON payload; the
second and third part_000 handlers serialize it without inspecting it, so a
stand-in spelling suffices for non-string values (no claim depends on it). -/
def JsVal.asImage : JsVal → String
  | JsVal.str s => s
  | JsVal.bool true => "true"
  | JsVal.bool false => "false"
  | JsVal.other _ => "[object Object]"

/-- `cleanOCR` of the second part_000 handler: unlike the netlify variant it
unwraps code fences first, then strips asterisk runs, then drops markdown
images, then trims (the fence regex `(m) => m.replace(/```/g, "")` removes
exactly the two delimiting fences of each lazy match). -/
def cleanOCRv2 (s : String) : String :=
  jsTrim (String.mk (stripMdImagesGo
    (stripStarRunsGo (stripFencesGo s.data.length s.data).length
      (stripFencesGo s.data.length s.data)).length
    (stripStarRunsGo (stripFencesGo s.data.length s.data).length
      (stripFencesGo s.data.length s.data))))

/-- `toHtmlParagraphs` of the second and third part_000 handlers; its body is
character-for-character the netlify `toFriendlyStepsHtml`. -/
def toHtmlParagraphs (text : String) : String := toFriendlyStepsHtml text

/-- The user message of `explainWithGroq` (second part_000 handler) and
`runExplainWithGroq` (third): a fixed step-by-step or brief prefix plus the
transcript. -/
def part000StepPrompt (sb : Bool) (t : String) : String :=
  (if sb then "Explain step by step:\n" else "Explain briefly:\n") ++ t

/-- The `catch (e1)` branch of the second handler's OCR stage: retry on
OpenRouter only when an OPENROUTER_API_KEY is present, otherwise rethrow the
primary error `e1`. -/
def part000v2Fallback (env : Env) (o : Oracle) (img e1 : String) :
    Except String String × List Call :=
  if envTruthy env.OPENROUTER_API_KEY then
    if o.ocr2.threw then
      (Except.error o.ocr2.errText, [Call.ocr false img, Call.ocr true img])
    else if !o.ocr2.ok then
      (Except.error ("OpenRouter OCR failed: " ++ o.ocr2.errText),
       [Call.ocr false img, Call.ocr true img])
    else if !o.ocr2.jsonOk then
      (Except.error jsonBodyErrorMsg, [Call.ocr false img, Call.ocr true img])
    else
      (Except.ok (cleanOCRv2 (o.ocr2.content.getD "")),
       [Call.ocr false img, Call.ocr true img])
  else (Except.error e1, [Call.ocr false img])

/-- The OCR stage of the second part_000 handler: `ocrWithGroq` (which
throws on a rejected fetch, a non-ok response, or an unparsable body), with
the conditional OpenRouter fallback on any thrown error. -/
def part000v2Ocr (env : Env) (o : Oracle) (img : String) :
    Except String String × List Call :=
  if o.ocr1.threw then part000v2Fallback env o img o.ocr1.errText
  else if !o.ocr1.ok then
    part000v2Fallback env o img ("Groq OCR failed: " ++ o.ocr1.errText)
  else if !o.ocr1.jsonOk then part000v2Fallback env o img jsonBodyErrorMsg
  else (Except.ok (cleanOCRv2 (o.ocr1.content.getD "")), [Call.ocr false img])

/-- `explainWithGroq` of the second part_000 handler; the result is
`(content || "").trim()`. -/
def explainWithGroqV2 (o : Oracle) (sb : Bool) (t : String) :
    Except String String × List Call :=
  if o.explain.threw then
    (Except.error o.explain.errText, [Call.explain (part000StepPrompt sb t)])
  else if !o.explain.ok then
    (Except.error ("Groq explain failed: " ++ o.explain.errText),
     [Call.explain (part000StepPrompt sb t)])
  else if !o.explain.jsonOk then
    (Except.error jsonBodyErrorMsg, [Call.explain (part000StepPrompt sb t)])
  else
    (Except.ok (jsTrim (o.explain.content.getD "")),
     [Call.explain (part000StepPrompt sb t)])

/-- The exported handler of the second part_000 variant. -/
def part000v2Handler (env : Env) (req : Request) (o : Oracle) : Resp × List Call :=
  if req.method ≠ "POST" then
    ({ status := 405, error := some "Method Not Allowed" }, [])
  else
    match req.body with
    | none =>
      ({ status := 500, error := some (jsOrDefault jsonSyntaxErrorMsg "Pipeline error") }, [])
    | some b =>
      match b.imageDataUrl with
      | none => ({ status := 400, error := some "Missing imageDataUrl" }, [])
      | some v =>
        if !v.truthy then ({ status := 400, error := some "Missing imageDataUrl" }, [])
        else
          match part000v2Ocr env o v.asImage with
          | (Except.error m, calls) =>
            ({ status := 500, error := some (jsOrDefault m "Pipeline error") }, calls)
          | (Except.ok text, calls) =>
            if text.data.isEmpty || !hasMathChar text then
              ({ status := 200, text := some text,
                 explanation := some (toHtmlParagraphs noMathMessage) }, calls)
            else
              match explainWithGroqV2 o (stepTruthy b.stepByStep) text with
              | (Except.error m, calls2) =>
                ({ status := 500, error := some (jsOrDefault m "Pipeline error") },
                 calls ++ calls2)
              | (Except.ok expl, calls2) =>
                ({ status := 200, text := some text,
                   explanation := some (toHtmlParagraphs expl) }, calls ++ calls2)

/-! ## The third handler of `src/unnamed/part_000` (OpenRouter-primary)

Lines 385 to 586: OCR with OpenRouter first and an unconditional Groq
vision fallback on any thrown error, then the no-math early return, then
the Groq text explanation.  Its `cleanOCR` is the netlify one. -/

/-- The `catch (e)` branch of the third handler's OCR stage: always retry
with `runOCRWithGroqVision`. -/
def part000v3Fallback (o : Oracle) (img : String) : Except String String × List Call :=
  if o.ocr2.threw then
    (Except.error o.ocr2.errText, [Call.ocr false img, Call.ocr true img])
  else if !o.ocr2.ok then
    (Except.error ("Groq OCR failed: " ++ o.ocr2.errText),
     [Call.ocr false img, Call.ocr true img])
  else if !o.ocr2.jsonOk then
    (Except.error jsonBodyErrorMsg, [Call.ocr false img, Call.ocr true img])
  else
    (Except.ok (cleanOCR (o.ocr2.content.getD "")),
     [Call.ocr false img, Call.ocr true img])

/-- The OCR stage of the third part_000 handler. -/
def part000v3Ocr (o : Oracle) (img : String) : Except String String × List Call :=
  if o.ocr1.threw then part000v3Fallback o img
  else if !o.ocr1.ok then part000v3Fallback o img
  else if !o.ocr1.jsonOk then part000v3Fallback o img
  else (Except.ok (cleanOCR (o.ocr1.content.getD "")), [Call.ocr false img])

/-- `runExplainWithGroq` of the third part_000 handler; the result is
`content?.trim() || ""`. -/
def runExplainWithGroqV3 (o : Oracle) (sb : Bool) (t : String) :
    Except String String × List Call :=
  if o.explain.threw then
    (Except.error o.explain.errText, [Call.explain (part000StepPrompt sb t)])
  else if !o.explain.ok then
    (Except.error ("Groq explain failed: " ++ o.explain.errText),
     [Call.explain (part000StepPrompt sb t)])
  else if !o.explain.jsonOk then
    (Except.error jsonBodyErrorMsg, [Call.explain (part000StepPrompt sb t)])
  else
    (Except.ok ((o.explain.content.map jsTrim).getD ""),
     [Call.explain (part000StepPrompt sb t)])

/-- The exported handler of the third part_000 variant. -/
def part000v3Handler (_env : Env) (req : Request) (o : Oracle) : Resp × List Call :=
  if req.method ≠ "POST" then
    ({ status := 405, error := some "Method Not Allowed" }, [])
  else
    match req.body with
    | none =>
      ({ status := 500, error := some (jsOrDefault jsonSyntaxErrorMsg "Pipeline error") }, [])
    | some b =>
      match b.imageDataUrl with
      | none => ({ status := 400, error := some "Missing imageDataUrl" }, [])
      | some v =>
        if !v.truthy then ({ status := 400, error := some "Missing imageDataUrl" }, [])
        else
          match part000v3Ocr o v.asImage with
          | (Except.error m, calls) =>
            ({ status := 500, error := some (jsOrDefault m "Pipeline error") }, calls)
          | (Except.ok rawText, calls) =>
            if rawText.data.isEmpty || !hasMathChar rawText then
              ({ status := 200, text := some (jsOrDefault rawText ""),
                 explanation := some (toHtmlParagraphs noMathMessage) }, calls)
            else
              match runExplainWithGroqV3 o (stepTruthy b.stepByStep) rawText with
              | (Except.error m, calls2) =>
                ({ status := 500, error := some (jsOrDefault m "Pipeline error") },
                 calls ++ calls2)
              | (Except.ok expl, calls2) =>
                ({ status := 200, text := some rawText,
                   explanation := some (toHtmlParagraphs expl) }, calls ++ calls2)

/-! ## The first handler of `src/unnamed/part_000` -/

/-- `j?.choices?.[0]?.message?.content?.trim?.() || j?...content || ""`
applied to a fetch result whose body is parsed with `.catch(() => null)`:
the trimmed content if the trim is truthy, else the raw content if truthy,
else the empty string. -/
def v1ContentText (r : FetchResult) : String :=
  if !r.jsonOk then ""
  else
    match r.content with
    | none => ""
    | some s => if (jsTrim s).data.isEmpty then s else jsTrim s

def cantSee : String := String.mk ['c', 'a', 'n', Char.ofNat 39, 't', ' ', 's', 'e', 'e']

/-- `/provide the image|no image|can't see|cannot see/i.test(s)`. -/
def v1NoImagePattern (s : String) : Bool :=
  jsIncludes (lowerStr s) "provide the image" ||
  jsIncludes (lowerStr s) "no image" ||
  jsIncludes (lowerStr s) cantSee ||
  jsIncludes (lowerStr s) "cannot see"

/-- Attempt A's transcript in the OCR stage of the first part_000 handler:
kept only when the response is ok and the text is neither empty nor a
negative reply. -/
def part000v1TextA (o : Oracle) : String :=
  if o.ocr1.ok then
    (if v1NoImagePattern (v1ContentText o.ocr1) || (v1ContentText o.ocr1).data.isEmpty
     then "" else v1ContentText o.ocr1)
  else ""

/-- The OCR stage of the first part_000 handler (lines 59 to 125): attempt A
with filtering, then attempt B on the fallback model, whose HTTP failure is
a 502 and whose transcript is kept unfiltered. -/
def part000v1Ocr (o : Oracle) (s : String) : Except Resp String × List Call :=
  if o.ocr1.threw then
    (Except.error { status := 500, error := some "pipeline_exception" }, [Call.ocr false s])
  else
    if (part000v1TextA o).data.isEmpty then
      if o.ocr2.threw then
        (Except.error { status := 500, error := some "pipeline_exception" },
         [Call.ocr false s, Call.ocr true s])
      else if !o.ocr2.ok then
        (Except.error { status := 502, error := some "openrouter_failed",
                        detail := some (jsSlice400 o.ocr2.errText) },
         [Call.ocr false s, Call.ocr true s])
      else (Except.ok (v1ContentText o.ocr2), [Call.ocr false s, Call.ocr true s])
    else (Except.ok (part000v1TextA o), [Call.ocr false s])

/-- The explanation user prompt of the first part_000 handler. -/
def v1Prompt (t : String) : String :=
  "OCR TEXT:\n" ++ jsOrDefault t "(empty)" ++
  "\n\nExplain or solve clearly. Return plain text containing LaTeX delimiters (no JSON)."

/-- The first (default-export) handler of `src/unnamed/part_000`: full image
validation, both key checks up front, two-attempt OCR, explanation. -/
def part000v1Handler (env : Env) (req : Request) (o : Oracle) : Resp × List Call :=
  if req.method ≠ "POST" then
    ({ status := 405, error := some "method_not_allowed" }, [])
  else
    match imageField req.body with
    | some (JsVal.str s) =>
      if jsStartsWith s "data:image/" then
        if !envTruthy env.OPENROUTER_API_KEY then
          ({ status := 500, error := some "missing_openrouter_key" }, [])
        else if !envTruthy env.GROQ_API_KEY then
          ({ status := 500, error := some "missing_groq_key" }, [])
        else
          match part000v1Ocr o s with
          | (Except.error resp, calls) => (resp, calls)
          | (Except.ok ocrText, calls) =>
            if o.explain.threw then
              ({ status := 500, error := some "pipeline_exception" },
               calls ++ [Call.explain (v1Prompt ocrText)])
            else if !o.explain.ok then
              ({ status := 502, error := some "groq_failed",
                 detail := some (jsSlice400 o.explain.errText),
                 text := some ocrText, numeric := some (tryEvaluate ocrText) },
               calls ++ [Call.explain (v1Prompt ocrText)])
            else
              ({ status := 200, text := some (jsOrDefault ocrText "-"),
                 numeric := some (tryEvaluate ocrText),
                 explanation := some (jsOrDefault (v1ContentText o.explain) "-") },
               calls ++ [Call.explain (v1Prompt ocrText)])
      else ({ status := 400, error := some "invalid_image" }, [])
    | _ => ({ status := 400, error := some "invalid_image" }, [])

/-! ## Helper lemmas and concrete fixtures -/

/-- The full validation of `imageDataUrl` shared by the api, part_000 and
part_001 handlers: present, a string, and starting with "data:image/". -/
def validImageField : Option JsVal → Bool
  | some (JsVal.str s) => jsStartsWith s "data:image/"
  | _ => false

theorem isPrefixOf_append (p t : List Char) : p.isPrefixOf (p ++ t) = true := by
  induction p with
  | nil => simp
  | cons c cs ih => simp [List.isPrefixOf, ih]

theorem jsOrDefault_empty_right (s : String) : jsOrDefault s "" = s := by
  unfold jsOrDefault
  split
  · next h =>
    cases s with
    | mk data => cases data <;> simp_all
  · rfl

/-- A valid image data URL longer than six million characters. -/
def bigImage : String := String.mk ("data:image/".data ++ List.replicate 6000000 'x')

theorem bigImage_length : bigImage.data.length = 6000011 := by
  show ("data:image/".data ++ List.replicate 6000000 'x').length = 6000011
  rw [List.length_append, List.length_replicate]
  rfl

theorem bigImage_startsWith : jsStartsWith bigImage "data:image/" = true := by
  unfold jsStartsWith bigImage
  exact isPrefixOf_append _ _

/-- part_001 returns 413 for any valid image payload longer than the limit,
whatever the environment and oracle. -/
theorem part001_oversized (env : Env) (o : Oracle) (s : String) (sb : Option JsVal)
    (hpre : jsStartsWith s "data:image/" = true) (hlen : 6000000 < s.data.length) :
    part001Handler env
      { method := "POST", body := some { imageDataUrl := some (JsVal.str s), stepByStep := sb } } o
      = ({ status := 413, error := some "image_too_large" }, []) := by
  have hlen' : 6000000 < s.length := hlen
  unfold part001Handler
  simp [hpre, hlen']

/-- An environment with both provider keys set. -/
def keysEnv : Env := { OPENROUTER_API_KEY := some "or-key", GROQ_API_KEY := some "groq-key" }

/-- An oracle where every upstream call succeeds. -/
def okOracle : Oracle :=
  { ocr1 := { content := some "2+2" }, ocr2 := { content := some "2+2" },
    explain := { content := some "ok" } }

/-- A well-formed request carrying a valid image data URL. -/
def validImgReq : Request :=
  { method := "POST",
    body := some { imageDataUrl := some (JsVal.str "data:image/png;base64,AA"),
                   stepByStep := none } }

/-! ## Claim C1 -/

/-- C1, counterexample: the netlify handler checks only truthiness of
`imageDataUrl`; a POST whose `imageDataUrl` is the string
"data:text/plain,x" (which does not start with "data:image/") is not
answered with 400 — it returns 200 and an upstream OCR call is made. -/
theorem C1_counterexample :
    jsStartsWith "data:text/plain,x" "data:image/" = false ∧
    (netlifyHandler keysEnv
      { method := "POST",
        body := some { imageDataUrl := some (JsVal.str "data:text/plain,x"),
                       stepByStep := none } } okOracle).1.status = 200 ∧
    (netlifyHandler keysEnv
      { method := "POST",
        body := some { imageDataUrl := some (JsVal.str "data:text/plain,x"),
                       stepByStep := none } } okOracle).2 ≠ [] := by
  refine ⟨by decide, ?_, ?_⟩ <;> decide!

/-- C1, amended: in the handlers that validate the payload
(`src/api/pipeline.js`, the first part_000 handler, and part_001), every
POST without an `imageDataUrl` that is a string starting with "data:image/"
yields status 400 with a JSON error body and no upstream call; the netlify
handler returns 400 only when the field is absent or falsy. -/
theorem C1_amended (env : Env) (req : Request) (o : Oracle)
    (hm : req.method = "POST") (hv : validImageField (imageField req.body) = false) :
    apiHandler env req o = ({ status := 400, error := some "invalid_image" }, []) ∧
    part000v1Handler env req o = ({ status := 400, error := some "invalid_image" }, []) ∧
    ((part001Handler env req o).1.status = 400 ∧
      (part001Handler env req o).1.error.isSome = true ∧
      (part001Handler env req o).2 = []) := by
  rcases req with ⟨m, b⟩
  simp only at hm
  subst hm
  refine ⟨?_, ?_, ?_⟩
  · unfold apiHandler
    rcases hb : imageField b with - | v
    · simp [hb]
    · rcases v with s | bv | tv
      · have hs : jsStartsWith s "data:image/" = false := by
          simpa [validImageField, hb] using hv
        simp [hb, hs]
      · simp [hb]
      · simp [hb]
  · unfold part000v1Handler
    rcases hb : imageField b with - | v
    · simp [hb]
    · rcases v with s | bv | tv
      · have hs : jsStartsWith s "data:image/" = false := by
          simpa [validImageField, hb] using hv
        simp [hb, hs]
      · simp [hb]
      · simp [hb]
  · unfold part001Handler
    rcases b with - | rb
    · simp
    · rcases hb : rb.imageDataUrl with - | v
      · simp [hb]
      · rcases v with s | bv | tv
        · have hs : jsStartsWith s "data:image/" = false := by
            simpa [validImageField, imageField, hb] using hv
          simp [hb, hs]
        · simp [hb]
        · simp [hb]

/-- C1, witness: a concrete invalid payload ("hello") is rejected with 400
and no upstream call by the validating handlers. -/
theorem C1_witness :
    apiHandler keysEnv
      { method := "POST", body := some { imageDataUrl := some (JsVal.str "hello"),
                                         stepByStep := none } } okOracle
      = ({ status := 400, error := some "invalid_image" }, []) ∧
    part000v1Handler keysEnv
      { method := "POST", body := some { imageDataUrl := some (JsVal.str "hello"),
                                         stepByStep := none } } okOracle
      = ({ status := 400, error := some "invalid_image" }, []) ∧
    ((part001Handler keysEnv
      { method := "POST", body := some { imageDataUrl := some (JsVal.str "hello"),
                                         stepByStep := none } } okOracle).1.status = 400 ∧
      (part001Handler keysEnv
        { method := "POST", body := some { imageDataUrl := some (JsVal.str "hello"),
                                           stepByStep := none } } okOracle).1.error.isSome = true ∧
      (part001Handler keysEnv
        { method := "POST", body := some { imageDataUrl := some (JsVal.str "hello"),
                                           stepByStep := none } } okOracle).2 = []) :=
  C1_amended keysEnv
    { method := "POST", body := some { imageDataUrl := some (JsVal.str "hello"),
                                       stepByStep := none } } okOracle rfl (by decide)

/-! ## Claim C4 -/

/-- An oracle whose OCR transcript has no math-like characters. -/
def noMathOracle : Oracle :=
  { ocr1 := { content := some "hello" },
    explain := { content := some "model explanation" } }

/-- C4, counterexample: the `src/api/pipeline.js` handler (named in the
claim's sources) has no no-math early return: for an OCR transcript
"hello" with no digit or operator characters it still makes the second
(explanation) model call and returns the model's explanation, not the fixed
no-math text. -/
theorem C4_counterexample :
    hasMathChar "hello" = false ∧
    (apiHandler keysEnv validImgReq noMathOracle).1.status = 200 ∧
    (apiHandler keysEnv validImgReq noMathOracle).1.explanation = some "model explanation" ∧
    (apiHandler keysEnv validImgReq noMathOracle).1.explanation ≠
      some (toFriendlyStepsHtml noMathMessage) ∧
    Call.explain (studentPrompt "hello") ∈ (apiHandler keysEnv validImgReq noMathOracle).2 := by
  refine ⟨by decide, ?_, ?_, ?_, ?_⟩ <;> decide!

/-- C4, amended: in the three handlers with the no-math check — the
netlify/functions handler and the second and third part_000 handlers — when
the primary OCR succeeds and its cleaned transcript contains no digit and
no operator character, the response is 200 with the fixed HTML-wrapped
no-math text and the explanation model is never called; the
`src/api/pipeline.js` handler (cited by the claim) has no such check and
makes the second call even then (counterexample). -/
theorem C4_amended (env : Env) (sb : Option JsVal) (o : Oracle) (s : String)
    (hpre : jsStartsWith s "data:" = true)
    (h1 : o.ocr1.threw = false) (h2 : o.ocr1.ok = true) (h3 : o.ocr1.jsonOk = true)
    (hmath : hasMathChar (cleanOCR (o.ocr1.content.getD "")) = false)
    (hmath2 : hasMathChar (cleanOCRv2 (o.ocr1.content.getD "")) = false) :
    netlifyHandler env
      { method := "POST",
        body := some { imageDataUrl := some (JsVal.str s), stepByStep := sb } } o
      = ({ status := 200, text := some (cleanOCR (o.ocr1.content.getD "")),
           explanation := some
             "<p>The image does not contain any mathematical expressions or steps.</p>" },
         [Call.ocr false s]) ∧
    part000v2Handler env
      { method := "POST",
        body := some { imageDataUrl := some (JsVal.str s), stepByStep := sb } } o
      = ({ status := 200, text := some (cleanOCRv2 (o.ocr1.content.getD "")),
           explanation := some
             "<p>The image does not contain any mathematical expressions or steps.</p>" },
         [Call.ocr false s]) ∧
    part000v3Handler env
      { method := "POST",
        body := some { imageDataUrl := some (JsVal.str s), stepByStep := sb } } o
      = ({ status := 200, text := some (cleanOCR (o.ocr1.content.getD "")),
           explanation := some
             "<p>The image does not contain any mathematical expressions or steps.</p>" },
         [Call.ocr false s]) := by
  have hhtml : toFriendlyStepsHtml noMathMessage =
      "<p>The image does not contain any mathematical expressions or steps.</p>" := by decide!
  have hhtml2 : toHtmlParagraphs noMathMessage =
      "<p>The image does not contain any mathematical expressions or steps.</p>" := hhtml
  have hne : s.data ≠ [] := by
    intro hnil
    rw [jsStartsWith, hnil] at hpre
    exact absurd hpre (by decide)
  have htruthy : (JsVal.str s).truthy = true := by
    unfold JsVal.truthy
    simpa using hne
  refine ⟨?_, ?_, ?_⟩
  · unfold netlifyHandler runOCRWithOpenRouter
    rw [hhtml] at *
    simp [htruthy, hpre, h1, h2, h3, hmath, jsOrDefault_empty_right, hhtml]
  · unfold part000v2Handler part000v2Ocr
    rw [hhtml2] at *
    simp [htruthy, h1, h2, h3, hmath2, JsVal.asImage, hhtml2]
  · unfold part000v3Handler part000v3Ocr
    rw [hhtml2] at *
    simp [htruthy, h1, h2, h3, hmath, jsOrDefault_empty_right, JsVal.asImage, hhtml2]

/-- C4, witness: concrete runs of the three no-math handlers on transcript
"hello" return the fixed no-math paragraph without a second call. -/
theorem C4_witness :
    hasMathChar (cleanOCR ((Oracle.ocr1 noMathOracle).content.getD "")) = false ∧
    netlifyHandler keysEnv
      { method := "POST",
        body := some { imageDataUrl := some (JsVal.str "data:image/png;base64,AA"),
                       stepByStep := none } } noMathOracle
      = ({ status := 200, text := some (cleanOCR ((Oracle.ocr1 noMathOracle).content.getD "")),
           explanation := some
             "<p>The image does not contain any mathematical expressions or steps.</p>" },
         [Call.ocr false "data:image/png;base64,AA"]) ∧
    part000v2Handler keysEnv
      { method := "POST",
        body := some { imageDataUrl := some (JsVal.str "data:image/png;base64,AA"),
                       stepByStep := none } } noMathOracle
      = ({ status := 200,
           text := some (cleanOCRv2 ((Oracle.ocr1 noMathOracle).content.getD "")),
           explanation := some
             "<p>The image does not contain any mathematical expressions or steps.</p>" },
         [Call.ocr false "data:image/png;base64,AA"]) ∧
    part000v3Handler keysEnv
      { method := "POST",
        body := some { imageDataUrl := some (JsVal.str "data:image/png;base64,AA"),
                       stepByStep := none } } noMathOracle
      = ({ status := 200, text := some (cleanOCR ((Oracle.ocr1 noMathOracle).content.getD "")),
           explanation := some
             "<p>The image does not contain any mathematical expressions or steps.</p>" },
         [Call.ocr false "data:image/png;base64,AA"]) :=
  ⟨by decide!,
   (C4_amended keysEnv none noMathOracle "data:image/png;base64,AA"
     (by decide) rfl rfl rfl (by decide!) (by decide!)).1,
   (C4_amended keysEnv none noMathOracle "data:image/png;base64,AA"
     (by decide) rfl rfl rfl (by decide!) (by decide!)).2.1,
   (C4_amended keysEnv none noMathOracle "data:image/png;base64,AA"
     (by decide) rfl rfl rfl (by decide!) (by decide!)).2.2⟩

/-! ## Claim C5 -/

/-- C5, counterexample: part_001 checks the payload size before the
credential: a valid image payload longer than 6,000,000 characters with no
OPENROUTER_API_KEY configured yields 413 image_too_large, not 500
missing_openrouter_key. -/
theorem C5_counterexample :
    jsStartsWith bigImage "data:image/" = true ∧
    6000000 < bigImage.data.length ∧
    envTruthy (Env.OPENROUTER_API_KEY { GROQ_API_KEY := some "g" }) = false ∧
    part001Handler { GROQ_API_KEY := some "g" }
      { method := "POST",
        body := some { imageDataUrl := some (JsVal.str bigImage), stepByStep := none } }
      okOracle
      = ({ status := 413, error := some "image_too_large" }, []) :=
  ⟨bigImage_startsWith, by rw [bigImage_length]; norm_num, rfl,
   part001_oversized _ _ _ _ bigImage_startsWith (by rw [bigImage_length]; norm_num)⟩

/-- C5, amended: a POST with a valid image payload (for part_001, of at most
6,000,000 characters) processed with no OPENROUTER_API_KEY yields 500 with
error tag missing_openrouter_key and no upstream call, in the api, first
part_000, and part_001 handlers. -/
theorem C5_amended (env : Env) (req : Request) (o : Oracle) (s : String)
    (hm : req.method = "POST") (himg : imageField req.body = some (JsVal.str s))
    (hpre : jsStartsWith s "data:image/" = true)
    (hkey : envTruthy env.OPENROUTER_API_KEY = false) :
    apiHandler env req o = ({ status := 500, error := some "missing_openrouter_key" }, []) ∧
    part000v1Handler env req o
      = ({ status := 500, error := some "missing_openrouter_key" }, []) ∧
    (s.data.length ≤ 6000000 →
      part001Handler env req o
        = ({ status := 500, error := some "missing_openrouter_key" }, [])) := by
  rcases req with ⟨m, b⟩
  simp only at hm himg
  subst hm
  refine ⟨?_, ?_, ?_⟩
  · unfold apiHandler
    simp [himg, hpre, hkey]
  · unfold part000v1Handler
    simp [himg, hpre, hkey]
  · intro hlen
    have hlen' : ¬ (6000000 < s.length) := by
      simpa using Nat.not_lt.mpr hlen
    rcases b with - | rb
    · simp [imageField] at himg
    · have himg' : rb.imageDataUrl = some (JsVal.str s) := himg
      unfold part001Handler
      simp [himg', hpre, hlen', hkey]

/-- C5, witness: a concrete valid-image POST with no OpenRouter key
configured gets 500 missing_openrouter_key from all three handlers. -/
theorem C5_witness :
    apiHandler { GROQ_API_KEY := some "g" } validImgReq okOracle
      = ({ status := 500, error := some "missing_openrouter_key" }, []) ∧
    part000v1Handler { GROQ_API_KEY := some "g" } validImgReq okOracle
      = ({ status := 500, error := some "missing_openrouter_key" }, []) ∧
    part001Handler { GROQ_API_KEY := some "g" } validImgReq okOracle
      = ({ status := 500, error := some "missing_openrouter_key" }, []) :=
  ⟨(C5_amended { GROQ_API_KEY := some "g" } validImgReq okOracle
      "data:image/png;base64,AA" rfl rfl (by decide) rfl).1,
   (C5_amended { GROQ_API_KEY := some "g" } validImgReq okOracle
      "data:image/png;base64,AA" rfl rfl (by decide) rfl).2.1,
   (C5_amended { GROQ_API_KEY := some "g" } validImgReq okOracle
      "data:image/png;base64,AA" rfl rfl (by decide) rfl).2.2 (by decide)⟩

/-! ## Claim C9 -/

/-- A payload longer than the limit that is not an image data URL. -/
def tooBigNotImage : String := String.mk (List.replicate 6000001 'x')

/-- C9, counterexample: the image validation runs before the size check, so
a 6,000,001-character payload that does not start with "data:image/" gets
400 invalid_image, not 413 image_too_large. -/
theorem C9_counterexample :
    6000000 < tooBigNotImage.data.length ∧
    part001Handler keysEnv
      { method := "POST",
        body := some { imageDataUrl := some (JsVal.str tooBigNotImage), stepByStep := none } }
      okOracle
      = ({ status := 400, error := some "invalid_image" }, []) := by
  constructor
  · show 6000000 < (List.replicate 6000001 'x').length
    rw [List.length_replicate]
    norm_num
  · decide!

/-- C9, amended: every POST whose `imageDataUrl` is a string that starts
with "data:image/" and is longer than 6,000,000 characters gets 413 with
error tag image_too_large from part_001, before any upstream call. -/
theorem C9_amended (env : Env) (o : Oracle) (s : String) (sb : Option JsVal)
    (hpre : jsStartsWith s "data:image/" = true) (hlen : 6000000 < s.data.length) :
    part001Handler env
      { method := "POST", body := some { imageDataUrl := some (JsVal.str s), stepByStep := sb } } o
      = ({ status := 413, error := some "image_too_large" }, []) :=
  part001_oversized env o s sb hpre hlen

/-- C9, witness: the concrete 6,000,011-character valid image payload is
rejected with 413 and no upstream call. -/
theorem C9_witness :
    part001Handler keysEnv
      { method := "POST",
        body := some { imageDataUrl := some (JsVal.str bigImage), stepByStep := none } }
      okOracle
      = ({ status := 413, error := some "image_too_large" }, []) :=
  C9_amended keysEnv okOracle bigImage none bigImage_startsWith
    (by rw [bigImage_length]; norm_num)

/-! ## Claim C10 -/

theorem runOCR_calls_shape (o : Oracle) (v : JsVal) :
    (runOCRWithOpenRouter o v).2 = [] ∨
      ∃ s, (runOCRWithOpenRouter o v).2 = [Call.ocr false s] := by
  unfold runOCRWithOpenRouter
  rcases v with s | b | t <;> repeat' split
  all_goals simp

theorem runExplain_calls (o : Oracle) (sb : Bool) (t : String) :
    (runExplainWithGroq o sb t).2 = [Call.explain (netlifyUserPrompt sb t)] := by
  unfold runExplainWithGroq
  repeat' split
  all_goals rfl

theorem runOCR_ok_text (o : Oracle) (v : JsVal) (raw : String) (calls : List Call)
    (h : runOCRWithOpenRouter o v = (Except.ok raw, calls)) :
    raw = cleanOCR (o.ocr1.content.getD "") := by
  unfold runOCRWithOpenRouter at h
  rcases v with s | b | t <;> repeat' split at h
  all_goals simp_all

/-- Any explanation prompt the netlify handler sends is the one built by
`runExplainWithGroq` from the effective stepByStep flag and the cleaned
transcript. -/
theorem netlify_explain_prompt (env : Env) (req : Request) (o : Oracle) (p : String)
    (hp : Call.explain p ∈ (netlifyHandler env req o).2) :
    p = netlifyUserPrompt (stepTruthy (stepField req.body))
          (cleanOCR (o.ocr1.content.getD "")) := by
  rcases req with ⟨m, b⟩
  rcases b with - | ⟨img, sb⟩
  · simp only [netlifyHandler] at hp
    split at hp <;> simp at hp
  · rcases img with - | v
    · simp only [netlifyHandler] at hp
      split at hp <;> simp at hp
    · simp only [netlifyHandler] at hp
      split at hp
      · simp at hp
      · split at hp
        · simp at hp
        · split at hp
          · next m2 calls heq =>
            have hc : calls = (runOCRWithOpenRouter o v).2 := by rw [heq]
            rw [hc] at hp
            rcases runOCR_calls_shape o v with h0 | ⟨s0, h0⟩ <;> rw [h0] at hp <;>
              simp at hp
          · next raw calls heq =>
            have hc : calls = (runOCRWithOpenRouter o v).2 := by rw [heq]
            split at hp
            · rw [hc] at hp
              rcases runOCR_calls_shape o v with h0 | ⟨s0, h0⟩ <;> rw [h0] at hp <;>
                simp at hp
            · split at hp
              all_goals
                next res2 calls2 heq2 =>
                have hc2 : calls2 = [Call.explain (netlifyUserPrompt (stepTruthy sb) raw)] := by
                  have h3 := runExplain_calls o (stepTruthy sb) raw
                  rw [heq2] at h3
                  simpa using h3
                rw [hc, hc2] at hp
                rw [← runOCR_ok_text o v raw calls heq]
                rcases runOCR_calls_shape o v with h0 | ⟨s0, h0⟩ <;> rw [h0] at hp <;>
                  simp_all [stepField]

theorem part000v2Ocr_all_ocr (env : Env) (o : Oracle) (img : String) :
    ∀ c ∈ (part000v2Ocr env o img).2, c.isOcr = true := by
  unfold part000v2Ocr part000v2Fallback
  repeat' split
  all_goals
    intro c hc
    simp only [List.mem_cons, List.not_mem_nil, or_false] at hc
    rcases hc with rfl | hc
    · rfl
    all_goals
      first
      | rfl
      | (rcases hc with rfl | hc; · rfl)

theorem part000v3Ocr_all_ocr (o : Oracle) (img : String) :
    ∀ c ∈ (part000v3Ocr o img).2, c.isOcr = true := by
  unfold part000v3Ocr part000v3Fallback
  repeat' split
  all_goals
    intro c hc
    simp only [List.mem_cons, List.not_mem_nil, or_false] at hc
    rcases hc with rfl | hc
    · rfl
    all_goals
      first
      | rfl
      | (rcases hc with rfl | hc; · rfl)

theorem explainWithGroqV2_calls (o : Oracle) (sb : Bool) (t : String) :
    (explainWithGroqV2 o sb t).2 = [Call.explain (part000StepPrompt sb t)] := by
  unfold explainWithGroqV2
  repeat' split
  all_goals rfl

theorem runExplainWithGroqV3_calls (o : Oracle) (sb : Bool) (t : String) :
    (runExplainWithGroqV3 o sb t).2 = [Call.explain (part000StepPrompt sb t)] := by
  unfold runExplainWithGroqV3
  repeat' split
  all_goals rfl

/-- Any explanation prompt the second part_000 handler sends is the fixed
prefix prompt built from the effective stepByStep flag. -/
theorem part000v2_explain_prompt (env : Env) (req : Request) (o : Oracle) (p : String)
    (hp : Call.explain p ∈ (part000v2Handler env req o).2) :
    ∃ t, p = part000StepPrompt (stepTruthy (stepField req.body)) t := by
  rcases req with ⟨m, b⟩
  rcases b with - | ⟨img, sb⟩
  · simp only [part000v2Handler] at hp
    split at hp <;> simp at hp
  · rcases img with - | v
    · simp only [part000v2Handler] at hp
      split at hp <;> simp at hp
    · simp only [part000v2Handler] at hp
      split at hp
      · simp at hp
      · split at hp
        · simp at hp
        · split at hp
          · next m2 calls heq =>
            have hc : calls = (part000v2Ocr env o v.asImage).2 := by rw [heq]
            rw [hc] at hp
            exact absurd (part000v2Ocr_all_ocr env o v.asImage _ hp) (by simp [Call.isOcr])
          · next raw calls heq =>
            have hc : calls = (part000v2Ocr env o v.asImage).2 := by rw [heq]
            split at hp
            · rw [hc] at hp
              exact absurd (part000v2Ocr_all_ocr env o v.asImage _ hp) (by simp [Call.isOcr])
            · split at hp
              all_goals
                next res2 calls2 heq2 =>
                have hc2 : calls2 = [Call.explain (part000StepPrompt (stepTruthy sb) raw)] := by
                  have h3 := explainWithGroqV2_calls o (stepTruthy sb) raw
                  rw [heq2] at h3
                  simpa using h3
                rw [hc, hc2, List.mem_append] at hp
                rcases hp with hp | hp
                · exact absurd (part000v2Ocr_all_ocr env o v.asImage _ hp)
                    (by simp [Call.isOcr])
                · simp only [List.mem_cons, List.not_mem_nil, or_false] at hp
                  injection hp with hp2
                  exact ⟨raw, hp2⟩

/-- Any explanation prompt the third part_000 handler sends is the fixed
prefix prompt built from the effective stepByStep flag. -/
theorem part000v3_explain_prompt (env : Env) (req : Request) (o : Oracle) (p : String)
    (hp : Call.explain p ∈ (part000v3Handler env req o).2) :
    ∃ t, p = part000StepPrompt (stepTruthy (stepField req.body)) t := by
  rcases req with ⟨m, b⟩
  rcases b with - | ⟨img, sb⟩
  · simp only [part000v3Handler] at hp
    split at hp <;> simp at hp
  · rcases img with - | v
    · simp only [part000v3Handler] at hp
      split at hp <;> simp at hp
    · simp only [part000v3Handler] at hp
      split at hp
      · simp at hp
      · split at hp
        · simp at hp
        · split at hp
          · next m2 calls heq =>
            have hc : calls = (part000v3Ocr o v.asImage).2 := by rw [heq]
            rw [hc] at hp
            exact absurd (part000v3Ocr_all_ocr o v.asImage _ hp) (by simp [Call.isOcr])
          · next raw calls heq =>
            have hc : calls = (part000v3Ocr o v.asImage).2 := by rw [heq]
            split at hp
            · rw [hc] at hp
              exact absurd (part000v3Ocr_all_ocr o v.asImage _ hp) (by simp [Call.isOcr])
            · split at hp
              all_goals
                next res2 calls2 heq2 =>
                have hc2 : calls2 = [Call.explain (part000StepPrompt (stepTruthy sb) raw)] := by
                  have h3 := runExplainWithGroqV3_calls o (stepTruthy sb) raw
                  rw [heq2] at h3
                  simpa using h3
                rw [hc, hc2, List.mem_append] at hp
                rcases hp with hp | hp
                · exact absurd (part000v3Ocr_all_ocr o v.asImage _ hp)
                    (by simp [Call.isOcr])
                · simp only [List.mem_cons, List.not_mem_nil, or_false] at hp
                  injection hp with hp2
                  exact ⟨raw, hp2⟩

/-- C10: in the stepByStep-accepting handler variants — netlify/functions
and the second and third part_000 handlers — a body that omits `stepByStep`
is processed identically to one with `stepByStep: true` (the destructuring
default), and every explanation call such a request produces carries the
step-by-step user prompt of that variant. -/
theorem C10_default_step (env : Env) (o : Oracle) (img : Option JsVal) (m : String) :
    (netlifyHandler env
        { method := m, body := some { imageDataUrl := img, stepByStep := none } } o
      = netlifyHandler env
          { method := m,
            body := some { imageDataUrl := img, stepByStep := some (JsVal.bool true) } } o) ∧
    (part000v2Handler env
        { method := m, body := some { imageDataUrl := img, stepByStep := none } } o
      = part000v2Handler env
          { method := m,
            body := some { imageDataUrl := img, stepByStep := some (JsVal.bool true) } } o) ∧
    (part000v3Handler env
        { method := m, body := some { imageDataUrl := img, stepByStep := none } } o
      = part000v3Handler env
          { method := m,
            body := some { imageDataUrl := img, stepByStep := some (JsVal.bool true) } } o) ∧
    (∀ p, Call.explain p ∈
        (netlifyHandler env
          { method := m, body := some { imageDataUrl := img, stepByStep := none } } o).2 →
        ∃ t, p = netlifyUserPrompt true t) ∧
    (∀ p, Call.explain p ∈
        (part000v2Handler env
          { method := m, body := some { imageDataUrl := img, stepByStep := none } } o).2 →
        ∃ t, p = part000StepPrompt true t) ∧
    (∀ p, Call.explain p ∈
        (part000v3Handler env
          { method := m, body := some { imageDataUrl := img, stepByStep := none } } o).2 →
        ∃ t, p = part000StepPrompt true t) := by
  refine ⟨rfl, rfl, rfl, ?_, ?_, ?_⟩
  · intro p hp
    exact ⟨cleanOCR (o.ocr1.content.getD ""),
      by simpa [stepField, stepTruthy] using netlify_explain_prompt env _ o p hp⟩
  · intro p hp
    obtain ⟨t, ht⟩ := part000v2_explain_prompt env _ o p hp
    exact ⟨t, by simpa [stepField, stepTruthy] using ht⟩
  · intro p hp
    obtain ⟨t, ht⟩ := part000v3_explain_prompt env _ o p hp
    exact ⟨t, by simpa [stepField, stepTruthy] using ht⟩

/-- C10, witness: concrete runs of the three variants with the field omitted
equal the runs with `stepByStep: true`. -/
theorem C10_witness :
    netlifyHandler keysEnv
      { method := "POST",
        body := some { imageDataUrl := some (JsVal.str "data:image/png;base64,AA"),
                       stepByStep := none } } okOracle
      = netlifyHandler keysEnv
          { method := "POST",
            body := some { imageDataUrl := some (JsVal.str "data:image/png;base64,AA"),
                           stepByStep := some (JsVal.bool true) } } okOracle ∧
    part000v2Handler keysEnv
      { method := "POST",
        body := some { imageDataUrl := some (JsVal.str "data:image/png;base64,AA"),
                       stepByStep := none } } okOracle
      = part000v2Handler keysEnv
          { method := "POST",
            body := some { imageDataUrl := some (JsVal.str "data:image/png;base64,AA"),
                           stepByStep := some (JsVal.bool true) } } okOracle ∧
    part000v3Handler keysEnv
      { method := "POST",
        body := some { imageDataUrl := some (JsVal.str "data:image/png;base64,AA"),
                       stepByStep := none } } okOracle
      = part000v3Handler keysEnv
          { method := "POST",
            body := some { imageDataUrl := some (JsVal.str "data:image/png;base64,AA"),
                           stepByStep := some (JsVal.bool true) } } okOracle :=
  ⟨(C10_default_step keysEnv okOracle (some (JsVal.str "data:image/png;base64,AA")) "POST").1,
   (C10_default_step keysEnv okOracle (some (JsVal.str "data:image/png;base64,AA")) "POST").2.1,
   (C10_default_step keysEnv okOracle (some (JsVal.str "data:image/png;base64,AA")) "POST").2.2.1⟩

/-! ## Claim C6 -/

/-- The reply "I can't see", which matches the first part_000 handler's
negative pattern `can't see` but none of the claim's three patterns. -/
def cantSeeReply : String :=
  String.mk ['I', ' ', 'c', 'a', 'n', Char.ofNat 39, 't', ' ', 's', 'e', 'e']

def cantSeeOracle : Oracle :=
  { ocr1 := { content := some cantSeeReply }, ocr2 := { content := some "2+2" },
    explain := { content := some "e" } }

/-- C6, counterexample: the first part_000 handler retries on the extra
pattern "can't see": a primary attempt yielding the non-empty transcript
"I can't see" — which matches none of the claim's three patterns — still
triggers the secondary OCR attempt, so two OCR calls are made. -/
theorem C6_counterexample :
    v1ContentText (Oracle.ocr1 cantSeeOracle) = cantSeeReply ∧
    cantSeeReply.data ≠ [] ∧
    jsIncludes (lowerStr cantSeeReply) "provide the image" = false ∧
    jsIncludes (lowerStr cantSeeReply) "no image" = false ∧
    jsIncludes (lowerStr cantSeeReply) "cannot see" = false ∧
    (part000v1Ocr cantSeeOracle "data:image/png;base64,AA").2.length = 2 := by
  refine ⟨?_, ?_, ?_, ?_, ?_, ?_⟩ <;> decide!

/-- C6, amended: with a successful primary response, part_001's
`ocrWithQwen` attempts the secondary payload exactly when the primary
transcript `isNoImageReply` (empty, whitespace, or containing "provide the
image" / "no image" / "cannot see"), making exactly one OCR call otherwise;
the first part_000 handler uses the same rule with its own pattern list,
which adds "can't see", and it also retries when the primary HTTP attempt
itself fails. -/
theorem C6_amended :
    (∀ (o : Oracle) (img : String),
      o.ocr1.threw = false → o.ocr1.ok = true →
      ((ocrWithQwen o img).2.length = 2 ↔
        isNoImageReply (if o.ocr1.jsonOk then o.ocr1.content.getD "" else "") = true) ∧
      (isNoImageReply (if o.ocr1.jsonOk then o.ocr1.content.getD "" else "") = false →
        (ocrWithQwen o img).2 = [Call.ocr false img])) ∧
    (∀ (o : Oracle) (s : String),
      o.ocr1.threw = false → o.ocr1.ok = true →
      ((part000v1Ocr o s).2.length = 2 ↔
        (v1NoImagePattern (v1ContentText o.ocr1)
          || (v1ContentText o.ocr1).data.isEmpty) = true)) ∧
    (∀ (o : Oracle) (s : String),
      o.ocr1.threw = false → o.ocr1.ok = false →
      (part000v1Ocr o s).2.length = 2) := by
  refine ⟨?_, ?_, ?_⟩
  · intro o img h1 h2
    have hc : callOpenRouterResult o.ocr1
        = some (if o.ocr1.jsonOk then o.ocr1.content.getD "" else "") := by
      simp [callOpenRouterResult, h1, h2]
    constructor
    · simp only [ocrWithQwen, hc]
      by_cases hni : isNoImageReply
          (if o.ocr1.jsonOk = true then o.ocr1.content.getD "" else "") = true
      · cases hcr2 : callOpenRouterResult o.ocr2 <;> simp [hni, hcr2]
      · simp [hni]
    · intro hni
      simp only [ocrWithQwen, hc]
      simp [hni]
  · intro o s h1 h2
    simp only [part000v1Ocr, part000v1TextA, h1, h2]
    by_cases hneg : (v1NoImagePattern (v1ContentText o.ocr1)
        || (v1ContentText o.ocr1).data.isEmpty) = true
    · simp only [hneg]
      cases h2' : o.ocr2.threw <;> cases hok2 : o.ocr2.ok <;> simp [hneg, h2', hok2]
    · simp only [Bool.not_eq_true] at hneg
      rw [Bool.or_eq_false_iff] at hneg
      simp [hneg.1, hneg.2]
  · intro o s h1 h2
    simp only [part000v1Ocr, part000v1TextA, h1, h2]
    cases h2' : o.ocr2.threw <;> cases hok2 : o.ocr2.ok <;> simp [h2', hok2]

/-- C6, witness: on a primary transcript "2+2" (not a no-image reply),
exactly one OCR call is made by part_001's `ocrWithQwen`. -/
theorem C6_witness :
    ((ocrWithQwen okOracle "data:image/png;base64,AA").2.length = 2 ↔
      isNoImageReply (if (Oracle.ocr1 okOracle).jsonOk
        then (Oracle.ocr1 okOracle).content.getD "" else "") = true) ∧
    (isNoImageReply (if (Oracle.ocr1 okOracle).jsonOk
        then (Oracle.ocr1 okOracle).content.getD "" else "") = false →
      (ocrWithQwen okOracle "data:image/png;base64,AA").2
        = [Call.ocr false "data:image/png;base64,AA"]) :=
  C6_amended.1 okOracle "data:image/png;base64,AA" rfl rfl

/-! ## Claim C7 -/

/-- Every non-200 response carries an error field and one of the five
failure statuses. -/
def failureEnvelope (r : Resp) : Prop :=
  r.status ≠ 200 →
    r.error.isSome = true ∧
    (r.status = 400 ∨ r.status = 405 ∨ r.status = 413 ∨ r.status = 500 ∨ r.status = 502)

theorem apiHandler_envelope (env : Env) (req : Request) (o : Oracle) :
    failureEnvelope (apiHandler env req o).1 := by
  unfold apiHandler failureEnvelope
  repeat' split
  all_goals simp

theorem netlifyHandler_envelope (env : Env) (req : Request) (o : Oracle) :
    failureEnvelope (netlifyHandler env req o).1 := by
  unfold netlifyHandler failureEnvelope
  repeat' split
  all_goals simp

theorem part001Handler_envelope (env : Env) (req : Request) (o : Oracle) :
    failureEnvelope (part001Handler env req o).1 := by
  unfold part001Handler failureEnvelope
  repeat' split
  all_goals simp

theorem part000v1Ocr_error_envelope (o : Oracle) (s : String) (resp : Resp)
    (calls : List Call) (h : part000v1Ocr o s = (Except.error resp, calls)) :
    failureEnvelope resp := by
  unfold part000v1Ocr at h
  repeat' split at h
  all_goals simp only [Prod.mk.injEq, Except.error.injEq, reduceCtorEq, false_and] at h
  all_goals rcases h with ⟨hresp, -⟩
  all_goals subst hresp
  all_goals simp [failureEnvelope]

theorem part000v1Handler_envelope (env : Env) (req : Request) (o : Oracle) :
    failureEnvelope (part000v1Handler env req o).1 := by
  unfold part000v1Handler
  repeat' split
  all_goals try simp [failureEnvelope]
  all_goals
    rename_i resp calls heq
    exact part000v1Ocr_error_envelope _ _ _ _ heq

/-- The oracle of a run whose primary OCR fetch returns an HTTP error. -/
def upstreamFailOracle : Oracle :=
  { ocr1 := { ok := false, errText := "upstream 500" },
    ocr2 := { content := some "2+2" }, explain := { content := some "e" } }

/-- C7, counterexample: in part_001 an upstream HTTP failure of the OCR call
is thrown and caught, producing 500 pipeline_exception — not the 502 the
claim assigns to upstream HTTP failures. -/
theorem C7_counterexample :
    (Oracle.ocr1 upstreamFailOracle).ok = false ∧
    (part001Handler keysEnv validImgReq upstreamFailOracle).1.status = 500 ∧
    (part001Handler keysEnv validImgReq upstreamFailOracle).1.error
      = some "pipeline_exception" ∧
    (part001Handler keysEnv validImgReq upstreamFailOracle).1.status ≠ 502 := by
  refine ⟨rfl, ?_, ?_, ?_⟩ <;> decide!

/-- C7, amended: every failure response of the four modelled handlers is a
JSON object with an error field and status in 400/405/413/500/502; invalid
input maps to 400, wrong method to 405, oversized payload to 413 (part_001),
missing credentials and unhandled exceptions to 500; an upstream HTTP
failure maps to 502 in the api and first part_000 handlers but to 500 in
part_001 and the netlify handler, where it is thrown and caught. -/
theorem C7_amended :
    (∀ (env : Env) (req : Request) (o : Oracle), failureEnvelope (apiHandler env req o).1) ∧
    (∀ (env : Env) (req : Request) (o : Oracle), failureEnvelope (netlifyHandler env req o).1) ∧
    (∀ (env : Env) (req : Request) (o : Oracle), failureEnvelope (part001Handler env req o).1) ∧
    (∀ (env : Env) (req : Request) (o : Oracle), failureEnvelope (part000v1Handler env req o).1) ∧
    (apiHandler keysEnv validImgReq upstreamFailOracle).1.status = 502 ∧
    (apiHandler keysEnv validImgReq upstreamFailOracle).1.error = some "openrouter_failed" ∧
    (part001Handler keysEnv validImgReq upstreamFailOracle).1.status = 500 :=
  ⟨apiHandler_envelope, netlifyHandler_envelope, part001Handler_envelope,
   part000v1Handler_envelope, by decide!, by decide!, by decide!⟩

/-! ## Claim C2 -/

theorem takeWhile_isDigit_nil {l : List Char} (h : ∀ c ∈ l, c.isDigit = false) :
    l.takeWhile Char.isDigit = [] := by
  cases l with
  | nil => rfl
  | cons c cs => simp [List.takeWhile_cons, h c (by simp)]

/-- A digit-free character list lexes to a token stream without numeric
literals (or fails): every literal needs at least one digit. -/
theorem lexGo_noNum (f : ℕ) (l : List Char) :
    (∀ c ∈ l, c.isDigit = false) →
    ∀ ts, lexGo f l = some ts → ∀ q, Tok.num q ∉ ts := by
  induction f, l using lexGo.induct with
  | case1 f =>
    intro _ ts hts q
    simp only [lexGo, Option.some.injEq] at hts
    simp [← hts]
  | case2 =>
    intro _ ts hts
    simp [lexGo] at hts
  | case3 f cs ih =>
    intro hdig ts hts q
    simp only [lexGo, Option.map_eq_some'] at hts
    obtain ⟨ts', hts', rfl⟩ := hts
    have h0 := ih (fun c hc => hdig c (by simp [hc])) ts' hts' q
    simp [h0]
  | case4 f cs ih =>
    intro hdig ts hts q
    simp only [lexGo, Option.map_eq_some'] at hts
    obtain ⟨ts', hts', rfl⟩ := hts
    have h0 := ih (fun c hc => hdig c (by simp [hc])) ts' hts' q
    simp [h0]
  | case5 f cs ih =>
    intro hdig ts hts q
    simp only [lexGo, Option.map_eq_some'] at hts
    obtain ⟨ts', hts', rfl⟩ := hts
    have h0 := ih (fun c hc => hdig c (by simp [hc])) ts' hts' q
    simp [h0]
  | case6 f cs =>
    intro _ ts hts
    simp [lexGo] at hts
  | case7 f cs hover ih =>
    intro hdig ts hts q
    rw [lexGo.eq_def] at hts
    split at hts <;> simp_all
    all_goals
      obtain ⟨a, ha, rfl⟩ := hts
      have h0 := ih _ ha q
      simp [h0]
  | case8 f cs hover ih =>
    intro hdig ts hts q
    rw [lexGo.eq_def] at hts
    split at hts <;> simp_all
    all_goals
      obtain ⟨a, ha, rfl⟩ := hts
      have h0 := ih _ ha q
      simp [h0]
  | case9 f cs hover ih =>
    intro hdig ts hts q
    rw [lexGo.eq_def] at hts
    split at hts <;> simp_all
    all_goals
      obtain ⟨a, ha, rfl⟩ := hts
      have h0 := ih _ ha q
      simp [h0]
  | case10 f cs hover ih =>
    intro hdig ts hts q
    rw [lexGo.eq_def] at hts
    split at hts <;> simp_all
    all_goals
      obtain ⟨a, ha, rfl⟩ := hts
      have h0 := ih _ ha q
      simp [h0]
  | case11 f cs ih =>
    intro hdig ts hts q
    simp only [lexGo, Option.map_eq_some'] at hts
    obtain ⟨ts', hts', rfl⟩ := hts
    have h0 := ih (fun c hc => hdig c (by simp [hc])) ts' hts' q
    simp [h0]
  | case12 f cs ih =>
    intro hdig ts hts q
    simp only [lexGo, Option.map_eq_some'] at hts
    obtain ⟨ts', hts', rfl⟩ := hts
    have h0 := ih (fun c hc => hdig c (by simp [hc])) ts' hts' q
    simp [h0]
  | case13 f c cs ho1 ho2 ho3 ho4 h5 h6 h7 h8 h9 h10 hdd q r hlit ihr =>
    intro hdig ts hts q'
    have hc : c.isDigit = false := hdig c (by simp)
    have hdot : c = '.' := by
      rcases Bool.or_eq_true_iff.mp hdd with h | h
      · exact absurd h (by simp [hc])
      · exact of_decide_eq_true h
    subst hdot
    have hlit0 : lexLit ('.' :: cs) = none := by
      have hdrop : ('.' :: cs).dropWhile Char.isDigit = '.' :: cs := by
        simp [List.dropWhile_cons]
      have htake : ('.' :: cs).takeWhile Char.isDigit = [] :=
        takeWhile_isDigit_nil hdig
      have htake2 : cs.takeWhile Char.isDigit = [] :=
        takeWhile_isDigit_nil (fun c hc => hdig c (by simp [hc]))
      unfold lexLit
      rw [hdrop]
      simp [htake, htake2]
    rw [hlit0] at hlit
    exact absurd hlit (by simp)
  | case14 f c cs ho1 ho2 ho3 ho4 h5 h6 h7 h8 h9 h10 hdd hlit =>
    intro hdig ts hts
    rw [lexGo.eq_def] at hts
    split at hts <;> simp_all
  | case15 f c cs ho1 ho2 ho3 ho4 h5 h6 h7 h8 h9 h10 hdd =>
    intro hdig ts hts
    rw [lexGo.eq_def] at hts
    split at hts <;> simp_all

/-- A token stream without numeric literals never parses: every derivation
bottoms out in a numeric primary. -/
theorem parse_noNum (f : ℕ) : ∀ ts : List Tok, (∀ q, Tok.num q ∉ ts) →
    parseP f ts = none ∧ parseU f ts = none ∧ parseT f ts = none ∧
    parseE f ts = none := by
  induction f with
  | zero => exact fun ts _ => ⟨rfl, rfl, rfl, rfl⟩
  | succ f ih =>
    intro ts h
    have hP : parseP (f + 1) ts = none := by
      cases ts with
      | nil => rfl
      | cons t ts' =>
        cases t with
        | num q => exact absurd (List.mem_cons_self _ _) (h q)
        | lparen =>
          have hE := (ih ts' (fun q hq => h q (List.mem_cons_of_mem _ hq))).2.2.2
          simp [parseP, hE]
        | plus => rfl
        | minus => rfl
        | star => rfl
        | slash => rfl
        | rparen => rfl
        | plusplus => rfl
        | minusminus => rfl
        | starstar => rfl
    have hU : parseU (f + 1) ts = none := by
      cases ts with
      | nil => exact (ih [] (by simp)).1
      | cons t ts' =>
        have htail := fun q hq => h q (List.mem_cons_of_mem _ hq)
        cases t with
        | plus => exact (ih ts' htail).2.1
        | minus => simp [parseU, (ih ts' htail).2.1]
        | num q => exact (ih _ h).1
        | lparen => exact (ih _ h).1
        | star => exact (ih _ h).1
        | slash => exact (ih _ h).1
        | rparen => exact (ih _ h).1
        | plusplus => exact (ih _ h).1
        | minusminus => exact (ih _ h).1
        | starstar => exact (ih _ h).1
    have hT : parseT (f + 1) ts = none := by
      simp [parseT, (ih ts h).2.1]
    have hE : parseE (f + 1) ts = none := by
      simp [parseE, (ih ts h).2.2.1]
    exact ⟨hP, hU, hT, hE⟩

/-- C2: for every input string containing no decimal digit character, the
local arithmetic evaluator `tryEvaluate` returns null. -/
theorem C2_no_digit_null (s : String) (h : ∀ c ∈ s.data, c.isDigit = false) :
    tryEvaluate s = none := by
  have hdig : ∀ c ∈ cleanChars s.data, c.isDigit = false := by
    intro c hc
    exact h c (List.mem_of_mem_filter (List.mem_of_mem_filter hc))
  have hdig2 : ∀ c ∈ '(' :: (cleanChars s.data ++ [')']), c.isDigit = false := by
    intro c hc
    rcases List.mem_cons.mp hc with rfl | hc2
    · rfl
    · rcases List.mem_append.mp hc2 with h3 | h3
      · exact hdig c h3
      · simp only [List.mem_singleton] at h3
        subst h3
        rfl
  have hclean : evalClean (cleanChars s.data) = none := by
    unfold evalClean lexChars
    cases hlex : lexGo ('(' :: (cleanChars s.data ++ [')'])).length
        ('(' :: (cleanChars s.data ++ [')'])) with
    | none => rfl
    | some ts =>
      have hnum := lexGo_noNum _ _ hdig2 ts hlex
      have hparse := (parse_noNum (8 * ts.length + 8) ts hnum).2.2.2
      simp [evalTokens, hparse]
  show (if cleanChars s.data = [] then none
    else
      match evalClean (cleanChars s.data) with
      | some (JsNum.fin q) => some q
      | _ => none) = none
  rw [hclean]
  split <;> rfl

/-- C2, witness: the digit-free input "hello" evaluates to null. -/
theorem C2_witness :
    (∀ c ∈ "hello".data, c.isDigit = false) ∧ tryEvaluate "hello" = none :=
  ⟨by decide, C2_no_digit_null "hello" (by decide)⟩

/-! ## Claim C8 -/

/-- The tail of `tryEvaluate` after sanitization: empty-check, evaluation,
and the `typeof val === "number" && Number.isFinite(val)` guard. -/
def tryEvaluateClean (clean : List Char) : Option ℚ :=
  if clean = [] then none
  else
    match evalClean clean with
    | some (JsNum.fin q) => some q
    | _ => none

theorem tryEvaluate_eq_clean (s : String) :
    tryEvaluate s = tryEvaluateClean (cleanChars s.data) := rfl

theorem cleanChars_filter (l : List Char) :
    cleanChars (l.filter isKeptChar) = cleanChars l := by
  simp [cleanChars, List.filter_filter, Bool.and_self]

/-- C8: `tryEvaluate` is total and returns either null or a finite number —
evaluations ending in Infinity or NaN are turned into null by the
`Number.isFinite` guard — and its result depends only on the input with
every character outside `[0-9+\-*\/().\s]` removed. -/
theorem C8_sanitize_safety :
    (∀ s : String, tryEvaluate s = none ∨ ∃ q : ℚ, tryEvaluate s = some q) ∧
    (∀ (s : String) (n : JsNum), evalClean (cleanChars s.data) = some n →
      (∀ q : ℚ, n ≠ JsNum.fin q) → tryEvaluate s = none) ∧
    (∀ s : String, tryEvaluate s = tryEvaluate (String.mk (s.data.filter isKeptChar))) := by
  refine ⟨?_, ?_, ?_⟩
  · intro s
    cases h : tryEvaluate s with
    | none => exact Or.inl rfl
    | some q => exact Or.inr ⟨q, rfl⟩
  · intro s n he hn
    rw [tryEvaluate_eq_clean]
    unfold tryEvaluateClean
    rw [he]
    split
    · rfl
    · cases n with
      | fin q => exact absurd rfl (hn q)
      | inf => rfl
      | ninf => rfl
      | nan => rfl
  · intro s
    rw [tryEvaluate_eq_clean, tryEvaluate_eq_clean]
    have hc : cleanChars ((String.mk (s.data.filter isKeptChar)).data) = cleanChars s.data :=
      cleanChars_filter s.data
    rw [hc]

/-- C8, witness: "1/0" evaluates to Infinity, which the guard maps to null,
and a string with foreign characters evaluates like its sanitized form. -/
theorem C8_witness :
    evalClean (cleanChars "1/0".data) = some JsNum.inf ∧
    tryEvaluate "1/0" = none ∧
    tryEvaluate "a2+b2" = tryEvaluate (String.mk ("a2+b2".data.filter isKeptChar)) ∧
    tryEvaluate "a2+b2" = some 4 :=
  ⟨by decide!,
   C8_sanitize_safety.2.1 "1/0" JsNum.inf (by decide!) (fun q h => JsNum.noConfusion h),
   C8_sanitize_safety.2.2 "a2+b2",
   by decide!⟩

/-! ## Claim C3: the specification-side arithmetic evaluator

Modelled from the spec's words: "a well-formed arithmetic string over
digits, +, -, *, /, parentheses, decimal points and whitespace" evaluated
exactly over ℚ.  Tokens are numerals (at least one digit, no redundant
leading zero), the four operators and parentheses, with whitespace allowed
between tokens and no multi-character operators; the grammar is the usual
additive / multiplicative / unary-sign / primary precedence with exact
rational division, undefined (`none`) on division by zero. -/

inductive SpecTok where
  | num (q : ℚ)
  | plus
  | minus
  | star
  | slash
  | lparen
  | rparen
  deriving DecidableEq

/-- The specification-side tokenizer: whitespace separated numerals,
operators and parentheses. -/
def specLexGo : ℕ → List Char → Option (List SpecTok)
  | _, [] => some []
  | 0, _ :: _ => none
  | f + 1, c :: cs =>
    if jsIsSpace c then specLexGo f cs
    else if c = '+' then (specLexGo f cs).map (SpecTok.plus :: ·)
    else if c = '-' then (specLexGo f cs).map (SpecTok.minus :: ·)
    else if c = '*' then (specLexGo f cs).map (SpecTok.star :: ·)
    else if c = '/' then (specLexGo f cs).map (SpecTok.slash :: ·)
    else if c = '(' then (specLexGo f cs).map (SpecTok.lparen :: ·)
    else if c = ')' then (specLexGo f cs).map (SpecTok.rparen :: ·)
    else if c.isDigit || c = '.' then
      match lexLit (c :: cs) with
      | some (q, r) => (specLexGo f r).map (SpecTok.num q :: ·)
      | none => none
    else none

def specLex (l : List Char) : Option (List SpecTok) := specLexGo l.length l

/-- Exact addition, undefined operands propagate. -/
def specAdd : Option ℚ → Option ℚ → Option ℚ
  | some x, some y => some (x + y)
  | _, _ => none

def specSub : Option ℚ → Option ℚ → Option ℚ
  | some x, some y => some (x - y)
  | _, _ => none

def specMul : Option ℚ → Option ℚ → Option ℚ
  | some x, some y => some (x * y)
  | _, _ => none

/-- Exact division, undefined on a zero divisor. -/
def specDiv : Option ℚ → Option ℚ → Option ℚ
  | some x, some y => if y = 0 then none else some (x / y)
  | _, _ => none

def specNeg : Option ℚ → Option ℚ
  | some x => some (-x)
  | none => none

mutual

def specP : ℕ → List SpecTok → Option (Option ℚ × List SpecTok)
  | 0, _ => none
  | _ + 1, SpecTok.num q :: ts => some (some q, ts)
  | f + 1, SpecTok.lparen :: ts =>
    match specE f ts with
    | some (v, SpecTok.rparen :: ts2) => some (v, ts2)
    | _ => none
  | _ + 1, _ => none

def specU : ℕ → List SpecTok → Option (Option ℚ × List SpecTok)
  | 0, _ => none
  | f + 1, SpecTok.plus :: ts => specU f ts
  | f + 1, SpecTok.minus :: ts => (specU f ts).map (fun vr => (specNeg vr.1, vr.2))
  | f + 1, ts => specP f ts

def specT : ℕ → List SpecTok → Option (Option ℚ × List SpecTok)
  | 0, _ => none
  | f + 1, ts =>
    match specU f ts with
    | some (v, r) => specTLoop f v r
    | none => none

def specTLoop : ℕ → Option ℚ → List SpecTok → Option (Option ℚ × List SpecTok)
  | 0, _, _ => none
  | f + 1, acc, SpecTok.star :: ts =>
    match specU f ts with
    | some (v, r) => specTLoop f (specMul acc v) r
    | none => none
  | f + 1, acc, SpecTok.slash :: ts =>
    match specU f ts with
    | some (v, r) => specTLoop f (specDiv acc v) r
    | none => none
  | _ + 1, acc, ts => some (acc, ts)

def specE : ℕ → List SpecTok → Option (Option ℚ × List SpecTok)
  | 0, _ => none
  | f + 1, ts =>
    match specT f ts with
    | some (v, r) => specELoop f v r
    | none => none

def specELoop : ℕ → Option ℚ → List SpecTok → Option (Option ℚ × List SpecTok)
  | 0, _, _ => none
  | f + 1, acc, SpecTok.plus :: ts =>
    match specT f ts with
    | some (v, r) => specELoop f (specAdd acc v) r
    | none => none
  | f + 1, acc, SpecTok.minus :: ts =>
    match specT f ts with
    | some (v, r) => specELoop f (specSub acc v) r
    | none => none
  | _ + 1, acc, ts => some (acc, ts)

end

/-- Modelled from the spec: the value of a well-formed arithmetic string
over digits, +, -, *, /, parentheses, decimal points and whitespace, with
exact rational arithmetic; `none` when the string is not well formed or
divides by zero. -/
def specArithValue (s : String) : Option ℚ :=
  match specLex s.data with
  | some ts =>
    match specE (8 * ts.length + 20) ts with
    | some (some q, []) => some q
    | _ => none
  | none => none

example : specArithValue "3 - -2" = some 5 := by decide!
example : specArithValue "3*0.5+3*(-1)" = some (-(3/2) : ℚ) := by decide!
example : specArithValue "1/0" = none := by decide!
example : specArithValue "2 + 2" = some 4 := by decide!

/-- C3, counterexample: "3 - -2" is a well-formed arithmetic string with
value 5, but stripping whitespace yields "3--2", whose "--" lexes as the
JavaScript decrement token, so `tryEvaluate` returns null instead. -/
theorem C3_counterexample :
    specArithValue "3 - -2" = some 5 ∧ tryEvaluate "3 - -2" = none := by
  constructor <;> decide!

/-! ### Branch equations for the code lexer at arbitrary fuel -/

def digitDot (c : Char) : Bool := c.isDigit || c = '.'

def signOpChar (c : Char) : Bool := c = '+' || c = '-' || c = '*' || c = '/'

theorem digitDot_not_special {c : Char} (hc : digitDot c = true) :
    c ≠ '+' ∧ c ≠ '-' ∧ c ≠ '*' ∧ c ≠ '/' ∧ c ≠ '(' ∧ c ≠ ')' ∧ jsIsSpace c = false := by
  rcases Bool.or_eq_true_iff.mp hc with hd | hd
  · have h9 : c.toNat ≤ 57 ∧ 48 ≤ c.toNat := by
      unfold Char.isDigit at hd
      simp only [Bool.and_eq_true, decide_eq_true_eq] at hd
      exact ⟨hd.2, hd.1⟩
    refine ⟨?_, ?_, ?_, ?_, ?_, ?_, ?_⟩
    · intro h; subst h; revert h9; decide
    · intro h; subst h; revert h9; decide
    · intro h; subst h; revert h9; decide
    · intro h; subst h; revert h9; decide
    · intro h; subst h; revert h9; decide
    · intro h; subst h; revert h9; decide
    · unfold jsIsSpace
      rw [Bool.eq_false_iff]
      intro hcon
      rw [List.contains_eq_any_beq, List.any_eq_true] at hcon
      obtain ⟨x, hx, hbeq⟩ := hcon
      have hxe : c.toNat = x := eq_of_beq hbeq
      subst hxe
      simp only [List.mem_cons, List.not_mem_nil, or_false] at hx
      omega
  · have hc' : c = '.' := of_decide_eq_true hd
    subst hc'
    refine ⟨by decide, by decide, by decide, by decide, by decide, by decide, by decide⟩

theorem lexGo_plus (f : ℕ) (cs : List Char) (h : ∀ x, cs ≠ '+' :: x) :
    lexGo (f + 1) ('+' :: cs) = (lexGo f cs).map (Tok.plus :: ·) := by
  cases cs with
  | nil => rfl
  | cons c2 cs2 =>
    have hne : c2 ≠ '+' := fun he => h cs2 (by rw [he])
    rw [lexGo.eq_def]
    split <;> try simp_all
    all_goals
      rename_i heq
      obtain ⟨h1x, h2x⟩ := heq
      subst h1x
      simp_all

theorem lexGo_minus (f : ℕ) (cs : List Char) (h : ∀ x, cs ≠ '-' :: x) :
    lexGo (f + 1) ('-' :: cs) = (lexGo f cs).map (Tok.minus :: ·) := by
  cases cs with
  | nil => rfl
  | cons c2 cs2 =>
    have hne : c2 ≠ '-' := fun he => h cs2 (by rw [he])
    rw [lexGo.eq_def]
    split <;> try simp_all
    all_goals
      rename_i heq
      obtain ⟨h1x, h2x⟩ := heq
      subst h1x
      simp_all

theorem lexGo_star (f : ℕ) (cs : List Char) (h : ∀ x, cs ≠ '*' :: x) :
    lexGo (f + 1) ('*' :: cs) = (lexGo f cs).map (Tok.star :: ·) := by
  cases cs with
  | nil => rfl
  | cons c2 cs2 =>
    have hne : c2 ≠ '*' := fun he => h cs2 (by rw [he])
    rw [lexGo.eq_def]
    split <;> try simp_all
    all_goals
      rename_i heq
      obtain ⟨h1x, h2x⟩ := heq
      subst h1x
      simp_all

theorem lexGo_slash (f : ℕ) (cs : List Char) (h : ∀ x, cs ≠ '/' :: x) :
    lexGo (f + 1) ('/' :: cs) = (lexGo f cs).map (Tok.slash :: ·) := by
  cases cs with
  | nil => rfl
  | cons c2 cs2 =>
    have hne : c2 ≠ '/' := fun he => h cs2 (by rw [he])
    rw [lexGo.eq_def]
    split <;> try simp_all
    all_goals
      rename_i heq
      obtain ⟨h1x, h2x⟩ := heq
      subst h1x
      simp_all

theorem lexGo_digit (f : ℕ) (c : Char) (cs : List Char) (q : ℚ) (r : List Char)
    (hc : digitDot c = true) (hlit : lexLit (c :: cs) = some (q, r)) :
    lexGo (f + 1) (c :: cs) = (lexGo f r).map (Tok.num q :: ·) := by
  obtain ⟨h1, h2, h3, h4, h5, h6, -⟩ := digitDot_not_special hc
  rw [lexGo.eq_def]
  split <;> try simp_all [digitDot]
  all_goals
    intro hx1 hx2
    simp_all [digitDot]

theorem lexGo_digit_none (f : ℕ) (c : Char) (cs : List Char)
    (hc : digitDot c = true) (hlit : lexLit (c :: cs) = none) :
    lexGo (f + 1) (c :: cs) = none := by
  obtain ⟨h1, h2, h3, h4, h5, h6, -⟩ := digitDot_not_special hc
  rw [lexGo.eq_def]
  split <;> simp_all [digitDot]

theorem lexGo_other (f : ℕ) (c : Char) (cs : List Char)
    (hc : digitDot c = false) (h1 : c ≠ '+') (h2 : c ≠ '-') (h3 : c ≠ '*')
    (h4 : c ≠ '/') (h5 : c ≠ '(') (h6 : c ≠ ')') :
    lexGo (f + 1) (c :: cs) = none := by
  rw [lexGo.eq_def]
  split <;> simp_all [digitDot]

/-- The lexer result does not depend on the fuel once it covers the input
length. -/
theorem lexGo_fuel (f : ℕ) (l : List Char) :
    ∀ g, l.length ≤ f → l.length ≤ g → lexGo f l = lexGo g l := by
  induction f, l using lexGo.induct with
  | case1 f =>
    intro g _ _
    simp [lexGo]
  | case2 c cs =>
    intro g h1 _
    simp at h1
  | case3 f cs ih =>
    intro g h1 h2
    cases g with
    | zero => simp at h2
    | succ g' =>
      have e1 : lexGo (f + 1) ('+' :: '+' :: cs) = (lexGo f cs).map (Tok.plusplus :: ·) := rfl
      have e2 : lexGo (g' + 1) ('+' :: '+' :: cs) = (lexGo g' cs).map (Tok.plusplus :: ·) := rfl
      simp only [List.length_cons] at h1 h2
      rw [e1, e2, ih g' (by omega) (by omega)]
  | case4 f cs ih =>
    intro g h1 h2
    cases g with
    | zero => simp at h2
    | succ g' =>
      have e1 : lexGo (f + 1) ('-' :: '-' :: cs) = (lexGo f cs).map (Tok.minusminus :: ·) := rfl
      have e2 : lexGo (g' + 1) ('-' :: '-' :: cs) = (lexGo g' cs).map (Tok.minusminus :: ·) := rfl
      simp only [List.length_cons] at h1 h2
      rw [e1, e2, ih g' (by omega) (by omega)]
  | case5 f cs ih =>
    intro g h1 h2
    cases g with
    | zero => simp at h2
    | succ g' =>
      have e1 : lexGo (f + 1) ('*' :: '*' :: cs) = (lexGo f cs).map (Tok.starstar :: ·) := rfl
      have e2 : lexGo (g' + 1) ('*' :: '*' :: cs) = (lexGo g' cs).map (Tok.starstar :: ·) := rfl
      simp only [List.length_cons] at h1 h2
      rw [e1, e2, ih g' (by omega) (by omega)]
  | case6 f cs =>
    intro g h1 h2
    cases g with
    | zero => simp at h2
    | succ g' => rfl
  | case7 f cs hover ih =>
    intro g h1 h2
    cases g with
    | zero => simp at h2
    | succ g' =>
      have hne : ∀ x, cs ≠ '+' :: x := fun x hx => hover x hx
      simp only [List.length_cons] at h1 h2
      rw [lexGo_plus f cs hne, lexGo_plus g' cs hne, ih g' (by omega) (by omega)]
  | case8 f cs hover ih =>
    intro g h1 h2
    cases g with
    | zero => simp at h2
    | succ g' =>
      have hne : ∀ x, cs ≠ '-' :: x := fun x hx => hover x hx
      simp only [List.length_cons] at h1 h2
      rw [lexGo_minus f cs hne, lexGo_minus g' cs hne, ih g' (by omega) (by omega)]
  | case9 f cs hover ih =>
    intro g h1 h2
    cases g with
    | zero => simp at h2
    | succ g' =>
      have hne : ∀ x, cs ≠ '*' :: x := fun x hx => hover x hx
      simp only [List.length_cons] at h1 h2
      rw [lexGo_star f cs hne, lexGo_star g' cs hne, ih g' (by omega) (by omega)]
  | case10 f cs hover ih =>
    intro g h1 h2
    cases g with
    | zero => simp at h2
    | succ g' =>
      have hne : ∀ x, cs ≠ '/' :: x := fun x hx => hover x hx
      simp only [List.length_cons] at h1 h2
      rw [lexGo_slash f cs hne, lexGo_slash g' cs hne, ih g' (by omega) (by omega)]
  | case11 f cs ih =>
    intro g h1 h2
    cases g with
    | zero => simp at h2
    | succ g' =>
      have e1 : lexGo (f + 1) ('(' :: cs) = (lexGo f cs).map (Tok.lparen :: ·) := rfl
      have e2 : lexGo (g' + 1) ('(' :: cs) = (lexGo g' cs).map (Tok.lparen :: ·) := rfl
      simp only [List.length_cons] at h1 h2
      rw [e1, e2, ih g' (by omega) (by omega)]
  | case12 f cs ih =>
    intro g h1 h2
    cases g with
    | zero => simp at h2
    | succ g' =>
      have e1 : lexGo (f + 1) (')' :: cs) = (lexGo f cs).map (Tok.rparen :: ·) := rfl
      have e2 : lexGo (g' + 1) (')' :: cs) = (lexGo g' cs).map (Tok.rparen :: ·) := rfl
      simp only [List.length_cons] at h1 h2
      rw [e1, e2, ih g' (by omega) (by omega)]
  | case13 f c cs ho1 ho2 ho3 ho4 h5 h6 h7 h8 h9 h10 hdd q r hlit ihr =>
    intro g h1 h2
    cases g with
    | zero => simp at h2
    | succ g' =>
      have hc : digitDot c = true := by
        unfold digitDot
        simpa using hdd
      have hr := lexLit_length hlit
      simp only [List.length_cons] at h1 h2 hr
      rw [lexGo_digit f c cs q r hc hlit, lexGo_digit g' c cs q r hc hlit,
        ihr g' (by omega) (by omega)]
  | case14 f c cs ho1 ho2 ho3 ho4 h5 h6 h7 h8 h9 h10 hdd hlit =>
    intro g h1 h2
    cases g with
    | zero => simp at h2
    | succ g' =>
      have hc : digitDot c = true := by
        unfold digitDot
        simpa using hdd
      rw [lexGo_digit_none f c cs hc hlit, lexGo_digit_none g' c cs hc hlit]
  | case15 f c cs ho1 ho2 ho3 ho4 h5 h6 h7 h8 h9 h10 hdd =>
    intro g h1 h2
    cases g with
    | zero => simp at h2
    | succ g' =>
      have hc : digitDot c = false := by
        unfold digitDot
        simpa using hdd
      rw [lexGo_other f c cs hc (fun h => h5 h) (fun h => h6 h) (fun h => h7 h)
          (fun h => h8 h) (fun h => h9 h) (fun h => h10 h),
        lexGo_other g' c cs hc (fun h => h5 h) (fun h => h6 h) (fun h => h7 h)
          (fun h => h8 h) (fun h => h9 h) (fun h => h10 h)]

/-! ### Canonical-fuel equations for `lexChars` -/

theorem lexChars_plusplus (cs : List Char) :
    lexChars ('+' :: '+' :: cs) = (lexChars cs).map (Tok.plusplus :: ·) := by
  show lexGo (cs.length + 1 + 1) ('+' :: '+' :: cs) = (lexGo cs.length cs).map (Tok.plusplus :: ·)
  rw [show lexGo (cs.length + 1 + 1) ('+' :: '+' :: cs)
      = (lexGo (cs.length + 1) cs).map (Tok.plusplus :: ·) from rfl]
  rw [lexGo_fuel (cs.length + 1) cs cs.length (by omega) (le_refl _)]

theorem lexChars_minusminus (cs : List Char) :
    lexChars ('-' :: '-' :: cs) = (lexChars cs).map (Tok.minusminus :: ·) := by
  show lexGo (cs.length + 1 + 1) ('-' :: '-' :: cs) = (lexGo cs.length cs).map (Tok.minusminus :: ·)
  rw [show lexGo (cs.length + 1 + 1) ('-' :: '-' :: cs)
      = (lexGo (cs.length + 1) cs).map (Tok.minusminus :: ·) from rfl]
  rw [lexGo_fuel (cs.length + 1) cs cs.length (by omega) (le_refl _)]

theorem lexChars_starstar (cs : List Char) :
    lexChars ('*' :: '*' :: cs) = (lexChars cs).map (Tok.starstar :: ·) := by
  show lexGo (cs.length + 1 + 1) ('*' :: '*' :: cs) = (lexGo cs.length cs).map (Tok.starstar :: ·)
  rw [show lexGo (cs.length + 1 + 1) ('*' :: '*' :: cs)
      = (lexGo (cs.length + 1) cs).map (Tok.starstar :: ·) from rfl]
  rw [lexGo_fuel (cs.length + 1) cs cs.length (by omega) (le_refl _)]

theorem lexChars_plus (cs : List Char) (h : ∀ x, cs ≠ '+' :: x) :
    lexChars ('+' :: cs) = (lexChars cs).map (Tok.plus :: ·) := by
  show lexGo (cs.length + 1) ('+' :: cs) = (lexGo cs.length cs).map (Tok.plus :: ·)
  rw [lexGo_plus cs.length cs h]

theorem lexChars_minus (cs : List Char) (h : ∀ x, cs ≠ '-' :: x) :
    lexChars ('-' :: cs) = (lexChars cs).map (Tok.minus :: ·) := by
  show lexGo (cs.length + 1) ('-' :: cs) = (lexGo cs.length cs).map (Tok.minus :: ·)
  rw [lexGo_minus cs.length cs h]

theorem lexChars_star (cs : List Char) (h : ∀ x, cs ≠ '*' :: x) :
    lexChars ('*' :: cs) = (lexChars cs).map (Tok.star :: ·) := by
  show lexGo (cs.length + 1) ('*' :: cs) = (lexGo cs.length cs).map (Tok.star :: ·)
  rw [lexGo_star cs.length cs h]

theorem lexChars_slash (cs : List Char) (h : ∀ x, cs ≠ '/' :: x) :
    lexChars ('/' :: cs) = (lexChars cs).map (Tok.slash :: ·) := by
  show lexGo (cs.length + 1) ('/' :: cs) = (lexGo cs.length cs).map (Tok.slash :: ·)
  rw [lexGo_slash cs.length cs h]

theorem lexChars_lparen (cs : List Char) :
    lexChars ('(' :: cs) = (lexChars cs).map (Tok.lparen :: ·) := rfl

theorem lexChars_rparen (cs : List Char) :
    lexChars (')' :: cs) = (lexChars cs).map (Tok.rparen :: ·) := rfl

theorem lexChars_digit (c : Char) (cs : List Char) (q : ℚ) (r : List Char)
    (hc : digitDot c = true) (hlit : lexLit (c :: cs) = some (q, r)) :
    lexChars (c :: cs) = (lexChars r).map (Tok.num q :: ·) := by
  show lexGo (cs.length + 1) (c :: cs) = (lexGo r.length r).map (Tok.num q :: ·)
  rw [lexGo_digit cs.length c cs q r hc hlit]
  have hr := lexLit_length hlit
  simp only [List.length_cons] at hr
  rw [lexGo_fuel cs.length r r.length (by omega) (le_refl _)]

/-! ### Whitespace stripping and the token-merge hazard

The sanitizer removes all whitespace before the JavaScript engine lexes the
string, so two tokens of the spec grammar that are separated only by
whitespace (or two identical sign characters that are adjacent) can merge
into one JavaScript token: "- -" or "--" becomes the decrement operator,
"* *" or "**" exponentiation, "/ /" or "//" a comment, and "1 2" the
numeral 12.  `noMergeHazard` scans for these situations. -/

def stripWs (l : List Char) : List Char := l.filter (fun c => !jsIsSpace c)

/-- `p` then `c`, with `w` recording whether whitespace stood between them:
does removing the whitespace merge them into one JavaScript token? -/
def hazPair (p c : Char) (w : Bool) : Bool :=
  (digitDot p && digitDot c && w) || (signOpChar p && (p == c))

/-- Scan for merge hazards; the state is the previous significant character
together with a flag recording whether whitespace has occurred since it. -/
def hazFreeGo : Option (Char × Bool) → List Char → Bool
  | _, [] => true
  | none, c :: cs =>
    if jsIsSpace c then hazFreeGo none cs else hazFreeGo (some (c, false)) cs
  | some (p, w), c :: cs =>
    if jsIsSpace c then hazFreeGo (some (p, true)) cs
    else if hazPair p c w then false
    else hazFreeGo (some (c, false)) cs

def noMergeHazard (s : String) : Bool := hazFreeGo none s.data

example : noMergeHazard "3*0.5+3*(-1)" = true := by decide!
example : noMergeHazard "3 - -2" = false := by decide!
example : noMergeHazard "3--2" = false := by decide!
example : noMergeHazard "1 2" = false := by decide!
example : noMergeHazard "(2+3)*4 - 1/2" = true := by decide!

/-! ### takeWhile / dropWhile bookkeeping for the numeric literal lexer -/

theorem dropWhile_cons_head {p : Char → Bool} :
    ∀ {l : List Char} {c : Char} {cs : List Char},
    l.dropWhile p = c :: cs → p c = false := by
  intro l
  induction l with
  | nil => intro c cs h; simp at h
  | cons a l ih =>
    intro c cs h
    rw [List.dropWhile_cons] at h
    by_cases hp : p a
    · rw [if_pos hp] at h
      exact ih h
    · rw [if_neg hp] at h
      injection h with h1 h2
      subst h1
      simpa using hp

theorem takeWhile_dropWhile_append {p : Char → Bool} {X : List Char}
    (hX : X.takeWhile p = []) :
    ∀ l : List Char,
      (l ++ X).takeWhile p = l.takeWhile p ∧ (l ++ X).dropWhile p = l.dropWhile p ++ X := by
  intro l
  induction l with
  | nil =>
    refine ⟨by simpa using hX, ?_⟩
    show X.dropWhile p = X
    cases hx : X with
    | nil => simp
    | cons y ys =>
      rw [hx, List.takeWhile_cons] at hX
      rw [List.dropWhile_cons]
      by_cases hp : p y
      · rw [if_pos hp] at hX; simp at hX
      · rw [if_neg hp]
  | cons a l ih =>
    rw [List.cons_append, List.takeWhile_cons, List.takeWhile_cons,
      List.dropWhile_cons, List.dropWhile_cons]
    by_cases hp : p a
    · simp only [if_pos hp]
      exact ⟨by rw [ih.1], by rw [ih.2]⟩
    · simp [hp]

/-- A successful literal lex splits the input as consumed prefix plus rest;
the consumed prefix is a nonempty run of digits and dots, the rest does not
begin with a digit, and the same prefix lexes to the same value against any
other continuation that cannot extend the literal. -/
theorem lexLit_decomp {l r : List Char} {q : ℚ} (h : lexLit l = some (q, r)) :
    ∃ lit, l = lit ++ r ∧ lit ≠ [] ∧ (∀ c ∈ lit, digitDot c = true) ∧
      (∀ c cs, r = c :: cs → c.isDigit = false) ∧
      (∀ X, (∀ y ys, X = y :: ys → y.isDigit = false) →
        (∀ ys, X = '.' :: ys → ∃ zs, r = '.' :: zs) →
        lexLit (lit ++ X) = some (q, X)) := by
  have htkall : ∀ c ∈ l.takeWhile Char.isDigit, Char.isDigit c = true :=
    fun c hc => List.mem_takeWhile_imp hc
  have htkself : (l.takeWhile Char.isDigit).takeWhile Char.isDigit = l.takeWhile Char.isDigit :=
    List.takeWhile_eq_self_iff.mpr htkall
  have htkdrop : (l.takeWhile Char.isDigit).dropWhile Char.isDigit = [] :=
    List.dropWhile_eq_nil_iff.mpr htkall
  unfold lexLit at h
  revert h
  split
  · next r2 hr2 =>
    intro h
    split at h
    · exact absurd h (by simp)
    · next hg1 =>
      split at h
      · exact absurd h (by simp)
      · next hg2 =>
        simp only [Option.some.injEq, Prod.mk.injEq] at h
        obtain ⟨hq, hr⟩ := h
        have hr2all : ∀ c ∈ r2.takeWhile Char.isDigit, Char.isDigit c = true :=
          fun c hc => List.mem_takeWhile_imp hc
        have hr2self : (r2.takeWhile Char.isDigit).takeWhile Char.isDigit
            = r2.takeWhile Char.isDigit := List.takeWhile_eq_self_iff.mpr hr2all
        have hr2drop : (r2.takeWhile Char.isDigit).dropWhile Char.isDigit = [] :=
          List.dropWhile_eq_nil_iff.mpr hr2all
        refine ⟨l.takeWhile Char.isDigit ++ '.' :: r2.takeWhile Char.isDigit, ?_, ?_, ?_, ?_, ?_⟩
        · conv_lhs => rw [← List.takeWhile_append_dropWhile (p := Char.isDigit) (l := l)]
          rw [hr2, ← hr]
          conv_lhs => rw [← List.takeWhile_append_dropWhile (p := Char.isDigit) (l := r2)]
          simp
        · simp
        · intro c hc
          rcases List.mem_append.mp hc with hc1 | hc2
          · simp [digitDot, htkall c hc1]
          · rcases List.mem_cons.mp hc2 with hc3 | hc4
            · subst hc3; decide
            · simp [digitDot, hr2all c hc4]
        · intro c cs hcc
          rw [← hr] at hcc
          exact dropWhile_cons_head hcc
        · intro X hXd hXdot
          have hXtw : X.takeWhile Char.isDigit = [] := by
            cases hxc : X with
            | nil => simp
            | cons y ys =>
              rw [List.takeWhile_cons, if_neg]
              rw [hXd y ys hxc]
              simp
          have hfpX := takeWhile_dropWhile_append (p := Char.isDigit) hXtw
            (r2.takeWhile Char.isDigit)
          have hdotX : (('.' :: (r2.takeWhile Char.isDigit ++ X)).takeWhile Char.isDigit) = [] := by
            rw [List.takeWhile_cons, if_neg]
            decide
          have hmain := takeWhile_dropWhile_append (p := Char.isDigit) hdotX
            (l.takeWhile Char.isDigit)
          unfold lexLit
          rw [List.append_assoc, List.cons_append]
          rw [hmain.2, htkdrop, List.nil_append]
          split
          · next r2x hr2x =>
            injection hr2x with hx1 hx2
            rw [← hx2]
            rw [hmain.1, htkself, hfpX.1, hr2self, hfpX.2, hr2drop, List.nil_append]
            rw [if_neg hg1, if_neg hg2, hq]
          · next hne =>
            exact absurd rfl (hne (r2.takeWhile Char.isDigit ++ X))
  · next hnedot =>
    intro h
    split at h
    · exact absurd h (by simp)
    · next hg1 =>
      split at h
      · exact absurd h (by simp)
      · next hg2 =>
        simp only [Option.some.injEq, Prod.mk.injEq] at h
        obtain ⟨hq, hr⟩ := h
        have hg1' : l.takeWhile Char.isDigit ≠ [] := by
          intro hcon
          exact hg1 (by simp [hcon])
        refine ⟨l.takeWhile Char.isDigit, ?_, hg1', ?_, ?_, ?_⟩
        · rw [← hr, List.takeWhile_append_dropWhile]
        · intro c hc
          simp [digitDot, htkall c hc]
        · intro c cs hcc
          rw [← hr] at hcc
          exact dropWhile_cons_head hcc
        · intro X hXd hXdot
          have hXtw : X.takeWhile Char.isDigit = [] := by
            cases hxc : X with
            | nil => simp
            | cons y ys =>
              rw [List.takeWhile_cons, if_neg]
              rw [hXd y ys hxc]
              simp
          have hmain := takeWhile_dropWhile_append (p := Char.isDigit) hXtw
            (l.takeWhile Char.isDigit)
          unfold lexLit
          rw [hmain.2, htkdrop, List.nil_append]
          split
          · next x r2x =>
            exfalso
            obtain ⟨zs, hzs⟩ := hXdot r2x rfl
            rw [← hr] at hzs
            exact hnedot zs hzs
          · next x hne2 =>
            rw [hmain.1, htkself]
            rw [if_neg hg1, if_neg hg2, hq]

/-! ### Facts about the hazard scanner -/

theorem hazFreeGo_cons_sig {st : Option (Char × Bool)} {c : Char} {cs : List Char}
    (hc : jsIsSpace c = false) (h : hazFreeGo st (c :: cs) = true) :
    hazFreeGo (some (c, false)) cs = true := by
  cases st with
  | none => simpa [hazFreeGo, hc] using h
  | some pw =>
    obtain ⟨p, w⟩ := pw
    simp only [hazFreeGo, hc, Bool.false_eq_true, if_false] at h
    by_cases hz : hazPair p c w = true
    · rw [if_pos hz] at h
      exact absurd h (by simp)
    · rwa [if_neg hz] at h

theorem hazFreeGo_cons_ws {st : Option (Char × Bool)} {c : Char} {cs : List Char}
    (hc : jsIsSpace c = true) (h : hazFreeGo st (c :: cs) = true) :
    ∃ st', hazFreeGo st' cs = true := by
  cases st with
  | none => exact ⟨none, by simpa [hazFreeGo, hc] using h⟩
  | some pw =>
    obtain ⟨p, w⟩ := pw
    exact ⟨some (p, true), by simpa [hazFreeGo, hc] using h⟩

/-- Walking the scanner through a nonempty run of digit / dot characters
never trips a hazard and leaves some digit-or-dot character as state. -/
theorem hazFreeGo_through : ∀ (lit : List Char) (st : Option (Char × Bool)) (r : List Char),
    lit ≠ [] → (∀ c ∈ lit, digitDot c = true) → hazFreeGo st (lit ++ r) = true →
    ∃ p, digitDot p = true ∧ hazFreeGo (some (p, false)) r = true := by
  intro lit
  induction lit with
  | nil => intro st r hne _ _; exact absurd rfl hne
  | cons c lit ih =>
    intro st r _ hall h
    have hc : digitDot c = true := hall c (by simp)
    have hws : jsIsSpace c = false := (digitDot_not_special hc).2.2.2.2.2.2
    rw [List.cons_append] at h
    have h2 := hazFreeGo_cons_sig hws h
    cases lit with
    | nil => exact ⟨c, hc, h2⟩
    | cons d lit2 =>
      exact ih (some (c, false)) r (by simp) (fun x hx => hall x (List.mem_cons_of_mem c hx)) h2

/-- If the scan from state `(p, w)` survives and the remainder has a first
significant character `y`, then either `y` follows directly and the pair
check at `w` passed, or whitespace intervened and the pair check with the
whitespace flag set passed. -/
theorem hazFree_strip {p : Char} (r : List Char) : ∀ (w : Bool) {y : Char} {ys : List Char},
    hazFreeGo (some (p, w)) r = true → stripWs r = y :: ys →
    (∃ zs, r = y :: zs ∧ hazPair p y w = false) ∨ hazPair p y true = false := by
  induction r with
  | nil => intro w y ys _ hs; simp [stripWs] at hs
  | cons c cs ih =>
    intro w y ys h hs
    by_cases hws : jsIsSpace c = true
    · rw [show stripWs (c :: cs) = stripWs cs from by simp [stripWs, hws]] at hs
      have h2 : hazFreeGo (some (p, true)) cs = true := by simpa [hazFreeGo, hws] using h
      rcases ih true h2 hs with ⟨zs, hcs, hp⟩ | hp
      · exact Or.inr hp
      · exact Or.inr hp
    · rw [Bool.not_eq_true] at hws
      rw [show stripWs (c :: cs) = c :: stripWs cs from by simp [stripWs, hws]] at hs
      injection hs with h1 h2
      subst h1
      have h3 : ¬ hazPair p c w = true := by
        intro hz
        simp [hazFreeGo, hws, hz] at h
      exact Or.inl ⟨cs, rfl, Bool.eq_false_iff.mpr h3⟩

/-! ### The spec parser rejects an empty token stream -/

theorem specP_nil (f : ℕ) : specP f [] = none := by cases f <;> rfl

theorem specU_nil (f : ℕ) : specU f [] = none := by
  cases f with
  | zero => rfl
  | succ f => show specP f [] = none; exact specP_nil f

theorem specT_nil (f : ℕ) : specT f [] = none := by
  cases f with
  | zero => rfl
  | succ f =>
    show (match specU f [] with
          | some (v, r) => specTLoop f v r
          | none => none) = none
    rw [specU_nil]

theorem specE_nil (f : ℕ) : specE f [] = none := by
  cases f with
  | zero => rfl
  | succ f =>
    show (match specT f [] with
          | some (v, r) => specELoop f v r
          | none => none) = none
    rw [specT_nil]

/-- A string of pure whitespace lexes to the empty token stream. -/
theorem specLexGo_all_ws : ∀ (f : ℕ) (l : List Char) (ts : List SpecTok),
    specLexGo f l = some ts → stripWs l = [] → ts = [] := by
  intro f
  induction f with
  | zero =>
    intro l ts h _
    cases l with
    | nil =>
      have he : specLexGo 0 ([] : List Char) = some [] := rfl
      rw [he] at h
      injection h with h1
      exact h1.symm
    | cons c cs => exact absurd h (by simp [specLexGo])
  | succ f ih =>
    intro l ts h hs
    cases l with
    | nil =>
      have he : specLexGo (f + 1) ([] : List Char) = some [] := rfl
      rw [he] at h
      injection h with h1
      exact h1.symm
    | cons c cs =>
      by_cases hws : jsIsSpace c = true
      · have h2 : specLexGo f cs = some ts := by simpa [specLexGo, hws] using h
        exact ih cs ts h2 (by simpa [stripWs, hws] using hs)
      · rw [Bool.not_eq_true] at hws
        rw [show stripWs (c :: cs) = c :: stripWs cs from by simp [stripWs, hws]] at hs
        exact absurd hs (by simp)

/-! ### A successfully spec-lexed string survives the sanitizer unchanged -/

theorem digitDot_kept {c : Char} (h : digitDot c = true) : isKeptChar c = true := by
  have h2 : c.isDigit = true ∨ c = '.' := by simpa [digitDot] using h
  rcases h2 with hd | hd
  · simp [isKeptChar, hd]
  · subst hd
    decide

theorem specLex_kept : ∀ (f : ℕ) (l : List Char) (ts : List SpecTok),
    specLexGo f l = some ts → ∀ c ∈ l, isKeptChar c = true := by
  intro f
  induction f with
  | zero =>
    intro l ts h c hc
    cases l with
    | nil => simp at hc
    | cons a cs => exact absurd h (by simp [specLexGo])
  | succ f ih =>
    intro l ts h c hc
    cases l with
    | nil => simp at hc
    | cons a cs =>
      by_cases hws : jsIsSpace a = true
      · have h2 : specLexGo f cs = some ts := by simpa [specLexGo, hws] using h
        rcases List.mem_cons.mp hc with rfl | hc2
        · simp [isKeptChar, hws]
        · exact ih cs ts h2 c hc2
      · rw [Bool.not_eq_true] at hws
        by_cases h1 : a = '+'
        · subst h1
          have e : jsIsSpace '+' = false := by decide
          have h2 : ∃ ts1, specLexGo f cs = some ts1 ∧ SpecTok.plus :: ts1 = ts := by
            simpa [specLexGo, e] using h
          obtain ⟨ts1, hcs, -⟩ := h2
          rcases List.mem_cons.mp hc with rfl | hc2
          · decide
          · exact ih cs ts1 hcs c hc2
        · by_cases h2 : a = '-'
          · subst h2
            have e : jsIsSpace '-' = false := by decide
            have h3 : ∃ ts1, specLexGo f cs = some ts1 ∧ SpecTok.minus :: ts1 = ts := by
              simpa [specLexGo, e] using h
            obtain ⟨ts1, hcs, -⟩ := h3
            rcases List.mem_cons.mp hc with rfl | hc2
            · decide
            · exact ih cs ts1 hcs c hc2
          · by_cases h3 : a = '*'
            · subst h3
              have e : jsIsSpace '*' = false := by decide
              have h4 : ∃ ts1, specLexGo f cs = some ts1 ∧ SpecTok.star :: ts1 = ts := by
                simpa [specLexGo, e] using h
              obtain ⟨ts1, hcs, -⟩ := h4
              rcases List.mem_cons.mp hc with rfl | hc2
              · decide
              · exact ih cs ts1 hcs c hc2
            · by_cases h4 : a = '/'
              · subst h4
                have e : jsIsSpace '/' = false := by decide
                have h5 : ∃ ts1, specLexGo f cs = some ts1 ∧ SpecTok.slash :: ts1 = ts := by
                  simpa [specLexGo, e] using h
                obtain ⟨ts1, hcs, -⟩ := h5
                rcases List.mem_cons.mp hc with rfl | hc2
                · decide
                · exact ih cs ts1 hcs c hc2
              · by_cases h5 : a = '('
                · subst h5
                  have e : jsIsSpace '(' = false := by decide
                  have h6 : ∃ ts1, specLexGo f cs = some ts1 ∧ SpecTok.lparen :: ts1 = ts := by
                    simpa [specLexGo, e] using h
                  obtain ⟨ts1, hcs, -⟩ := h6
                  rcases List.mem_cons.mp hc with rfl | hc2
                  · decide
                  · exact ih cs ts1 hcs c hc2
                · by_cases h6 : a = ')'
                  · subst h6
                    have e : jsIsSpace ')' = false := by decide
                    have h7 : ∃ ts1, specLexGo f cs = some ts1 ∧ SpecTok.rparen :: ts1 = ts := by
                      simpa [specLexGo, e] using h
                    obtain ⟨ts1, hcs, -⟩ := h7
                    rcases List.mem_cons.mp hc with rfl | hc2
                    · decide
                    · exact ih cs ts1 hcs c hc2
                  · by_cases hdd : (a.isDigit || decide (a = '.')) = true
                    · have h7 : (match lexLit (a :: cs) with
                          | some (q, r) => (specLexGo f r).map (SpecTok.num q :: ·)
                          | none => none) = some ts := by
                        simpa [specLexGo, hws, h1, h2, h3, h4, h5, h6, hdd] using h
                      rcases hlit : lexLit (a :: cs) with _ | qr
                      · rw [hlit] at h7; exact absurd h7 (by simp)
                      · obtain ⟨q, r⟩ := qr
                        rw [hlit] at h7
                        have h8 : (specLexGo f r).map (SpecTok.num q :: ·) = some ts := h7
                        rcases hrr : specLexGo f r with _ | ts1
                        · rw [hrr] at h8; exact absurd h8 (by simp)
                        · obtain ⟨lit, hdec, hlitne, hlitdd, -, -⟩ := lexLit_decomp hlit
                          rw [hdec] at hc
                          rcases List.mem_append.mp hc with hcl | hcr
                          · exact digitDot_kept (hlitdd c hcl)
                          · exact ih r ts1 hrr c hcr
                    · exact absurd h (by simp [specLexGo, hws, h1, h2, h3, h4, h5, h6, hdd])

theorem cleanChars_eq_stripWs {l : List Char} (h : ∀ c ∈ l, isKeptChar c = true) :
    cleanChars l = stripWs l := by
  unfold cleanChars stripWs
  rw [List.filter_eq_self.mpr h]

/-! ### Bridge: spec tokens survive whitespace removal into the code lexer -/

def convTok : SpecTok → Tok
  | SpecTok.num q => Tok.num q
  | SpecTok.plus => Tok.plus
  | SpecTok.minus => Tok.minus
  | SpecTok.star => Tok.star
  | SpecTok.slash => Tok.slash
  | SpecTok.lparen => Tok.lparen
  | SpecTok.rparen => Tok.rparen

/-- On a hazard-free string the code lexer applied to the whitespace-stripped
characters (with the closing parenthesis of the generated return statement
appended) produces exactly the spec tokens, converted. -/
theorem bridgeM : ∀ (f : ℕ) (l : List Char) (st : Option (Char × Bool)) (ts : List SpecTok),
    l.length ≤ f → hazFreeGo st l = true → specLexGo f l = some ts →
    lexChars (stripWs l ++ [')']) = some (ts.map convTok ++ [Tok.rparen]) := by
  intro f
  induction f with
  | zero =>
    intro l st ts hlen _ h
    cases l with
    | nil =>
      have he : specLexGo 0 ([] : List Char) = some [] := rfl
      rw [he] at h
      injection h with h1
      subst h1
      rfl
    | cons c cs => simp at hlen
  | succ f ih =>
    intro l st ts hlen hhaz h
    cases l with
    | nil =>
      have he : specLexGo (f + 1) ([] : List Char) = some [] := rfl
      rw [he] at h
      injection h with h1
      subst h1
      rfl
    | cons c cs =>
      simp only [List.length_cons] at hlen
      by_cases hws : jsIsSpace c = true
      · have h2 : specLexGo f cs = some ts := by simpa [specLexGo, hws] using h
        obtain ⟨st', hst'⟩ := hazFreeGo_cons_ws hws hhaz
        rw [show stripWs (c :: cs) = stripWs cs from by simp [stripWs, hws]]
        exact ih cs st' ts (by omega) hst' h2
      · rw [Bool.not_eq_true] at hws
        by_cases h1 : c = '+'
        · subst h1
          have e : jsIsSpace '+' = false := by decide
          have h2 : ∃ ts1, specLexGo f cs = some ts1 ∧ SpecTok.plus :: ts1 = ts := by
            simpa [specLexGo, e] using h
          obtain ⟨ts1, hcs, hts⟩ := h2
          subst hts
          have hhz : hazFreeGo (some ('+', false)) cs = true := hazFreeGo_cons_sig e hhaz
          rw [show stripWs ('+' :: cs) = '+' :: stripWs cs from by simp [stripWs, e],
            List.cons_append]
          rw [lexChars_plus (stripWs cs ++ [')']) ?hd]
          case hd =>
            intro x hx
            cases hsc : stripWs cs with
            | nil => rw [hsc] at hx; simp at hx
            | cons y ys =>
              rw [hsc, List.cons_append] at hx
              injection hx with hy hys
              subst hy
              rcases hazFree_strip cs false hhz hsc with ⟨zs, -, hp⟩ | hp <;>
                simp [hazPair, signOpChar] at hp
          rw [ih cs (some ('+', false)) ts1 (by omega) hhz hcs]
          simp [convTok]
        · by_cases h2 : c = '-'
          · subst h2
            have e : jsIsSpace '-' = false := by decide
            have h3 : ∃ ts1, specLexGo f cs = some ts1 ∧ SpecTok.minus :: ts1 = ts := by
              simpa [specLexGo, e] using h
            obtain ⟨ts1, hcs, hts⟩ := h3
            subst hts
            have hhz : hazFreeGo (some ('-', false)) cs = true := hazFreeGo_cons_sig e hhaz
            rw [show stripWs ('-' :: cs) = '-' :: stripWs cs from by simp [stripWs, e],
              List.cons_append]
            rw [lexChars_minus (stripWs cs ++ [')']) ?hd]
            case hd =>
              intro x hx
              cases hsc : stripWs cs with
              | nil => rw [hsc] at hx; simp at hx
              | cons y ys =>
                rw [hsc, List.cons_append] at hx
                injection hx with hy hys
                subst hy
                rcases hazFree_strip cs false hhz hsc with ⟨zs, -, hp⟩ | hp <;>
                  simp [hazPair, signOpChar] at hp
            rw [ih cs (some ('-', false)) ts1 (by omega) hhz hcs]
            simp [convTok]
          · by_cases h3 : c = '*'
            · subst h3
              have e : jsIsSpace '*' = false := by decide
              have h4 : ∃ ts1, specLexGo f cs = some ts1 ∧ SpecTok.star :: ts1 = ts := by
                simpa [specLexGo, e] using h
              obtain ⟨ts1, hcs, hts⟩ := h4
              subst hts
              have hhz : hazFreeGo (some ('*', false)) cs = true := hazFreeGo_cons_sig e hhaz
              rw [show stripWs ('*' :: cs) = '*' :: stripWs cs from by simp [stripWs, e],
                List.cons_append]
              rw [lexChars_star (stripWs cs ++ [')']) ?hd]
              case hd =>
                intro x hx
                cases hsc : stripWs cs with
                | nil => rw [hsc] at hx; simp at hx
                | cons y ys =>
                  rw [hsc, List.cons_append] at hx
                  injection hx with hy hys
                  subst hy
                  rcases hazFree_strip cs false hhz hsc with ⟨zs, -, hp⟩ | hp <;>
                    simp [hazPair, signOpChar] at hp
              rw [ih cs (some ('*', false)) ts1 (by omega) hhz hcs]
              simp [convTok]
            · by_cases h4 : c = '/'
              · subst h4
                have e : jsIsSpace '/' = false := by decide
                have h5 : ∃ ts1, specLexGo f cs = some ts1 ∧ SpecTok.slash :: ts1 = ts := by
                  simpa [specLexGo, e] using h
                obtain ⟨ts1, hcs, hts⟩ := h5
                subst hts
                have hhz : hazFreeGo (some ('/', false)) cs = true := hazFreeGo_cons_sig e hhaz
                rw [show stripWs ('/' :: cs) = '/' :: stripWs cs from by simp [stripWs, e],
                  List.cons_append]
                rw [lexChars_slash (stripWs cs ++ [')']) ?hd]
                case hd =>
                  intro x hx
                  cases hsc : stripWs cs with
                  | nil => rw [hsc] at hx; simp at hx
                  | cons y ys =>
                    rw [hsc, List.cons_append] at hx
                    injection hx with hy hys
                    subst hy
                    rcases hazFree_strip cs false hhz hsc with ⟨zs, -, hp⟩ | hp <;>
                      simp [hazPair, signOpChar] at hp
                rw [ih cs (some ('/', false)) ts1 (by omega) hhz hcs]
                simp [convTok]
              · by_cases h5 : c = '('
                · subst h5
                  have e : jsIsSpace '(' = false := by decide
                  have h6 : ∃ ts1, specLexGo f cs = some ts1 ∧ SpecTok.lparen :: ts1 = ts := by
                    simpa [specLexGo, e] using h
                  obtain ⟨ts1, hcs, hts⟩ := h6
                  subst hts
                  have hhz : hazFreeGo (some ('(', false)) cs = true := hazFreeGo_cons_sig e hhaz
                  rw [show stripWs ('(' :: cs) = '(' :: stripWs cs from by simp [stripWs, e],
                    List.cons_append]
                  rw [lexChars_lparen (stripWs cs ++ [')'])]
                  rw [ih cs (some ('(', false)) ts1 (by omega) hhz hcs]
                  simp [convTok]
                · by_cases h6 : c = ')'
                  · subst h6
                    have e : jsIsSpace ')' = false := by decide
                    have h7 : ∃ ts1, specLexGo f cs = some ts1 ∧ SpecTok.rparen :: ts1 = ts := by
                      simpa [specLexGo, e] using h
                    obtain ⟨ts1, hcs, hts⟩ := h7
                    subst hts
                    have hhz : hazFreeGo (some (')', false)) cs = true := hazFreeGo_cons_sig e hhaz
                    rw [show stripWs (')' :: cs) = ')' :: stripWs cs from by simp [stripWs, e],
                      List.cons_append]
                    rw [lexChars_rparen (stripWs cs ++ [')'])]
                    rw [ih cs (some (')', false)) ts1 (by omega) hhz hcs]
                    simp [convTok]
                  · by_cases hdd : (c.isDigit || decide (c = '.')) = true
                    · have h7 : (match lexLit (c :: cs) with
                          | some (q, r) => (specLexGo f r).map (SpecTok.num q :: ·)
                          | none => none) = some ts := by
                        simpa [specLexGo, hws, h1, h2, h3, h4, h5, h6, hdd] using h
                      rcases hlit : lexLit (c :: cs) with _ | qr
                      · rw [hlit] at h7; exact absurd h7 (by simp)
                      · obtain ⟨q, r⟩ := qr
                        rw [hlit] at h7
                        have h8 : (specLexGo f r).map (SpecTok.num q :: ·) = some ts := h7
                        rcases hrr : specLexGo f r with _ | ts1
                        · rw [hrr] at h8; exact absurd h8 (by simp)
                        · rw [hrr] at h8
                          have hts : ts = SpecTok.num q :: ts1 := by
                            simpa using h8.symm
                          subst hts
                          obtain ⟨lit, hdec, hlitne, hlitdd, hrhead, hext⟩ := lexLit_decomp hlit
                          obtain ⟨lit2, hlit2⟩ : ∃ lit2, lit = c :: lit2 := by
                            cases hl : lit with
                            | nil => exact absurd hl hlitne
                            | cons a lit2 =>
                              rw [hl, List.cons_append] at hdec
                              injection hdec with ha _
                              rw [ha]
                              exact ⟨lit2, rfl⟩
                          subst hlit2
                          have hcs : cs = lit2 ++ r := by
                            have h9 := congrArg List.tail hdec
                            rw [List.cons_append] at h9
                            simpa using h9
                          obtain ⟨p, hpdd, hpfr⟩ := hazFreeGo_through (c :: lit2) st r
                            (by simp) hlitdd (by rw [hcs] at hhaz; exact hhaz)
                          have hstrip : stripWs (c :: cs) = (c :: lit2) ++ stripWs r := by
                            rw [hcs]
                            show stripWs ((c :: lit2) ++ r) = _
                            unfold stripWs
                            rw [List.filter_append, List.filter_eq_self.mpr ?keep]
                            case keep =>
                              intro a ha
                              rw [(digitDot_not_special (hlitdd a ha)).2.2.2.2.2.2]
                              rfl
                          rw [hstrip, List.append_assoc, List.cons_append]
                          have hXd : ∀ y ys, stripWs r ++ [')'] = y :: ys → y.isDigit = false := by
                            intro y ys hy
                            cases hsr : stripWs r with
                            | nil =>
                              rw [hsr, List.nil_append] at hy
                              injection hy with hy1 _
                              rw [← hy1]
                              decide
                            | cons y0 ys0 =>
                              rw [hsr, List.cons_append] at hy
                              injection hy with hy1 _
                              subst hy1
                              rcases hazFree_strip r false hpfr hsr with ⟨zs, hrz, -⟩ | hp
                              · exact hrhead y0 zs hrz
                              · have hy0 : digitDot y0 = false := by
                                  by_contra hcon
                                  rw [Bool.not_eq_false] at hcon
                                  simp [hazPair, hpdd, hcon] at hp
                                have h10 : ¬(y0.isDigit = true ∨ y0 = '.') := by
                                  simpa [digitDot] using hy0
                                rw [Bool.eq_false_iff]
                                intro hcon
                                exact h10 (Or.inl hcon)
                          have hXdot : ∀ ys, stripWs r ++ [')'] = '.' :: ys →
                              ∃ zs, r = '.' :: zs := by
                            intro ys hy
                            cases hsr : stripWs r with
                            | nil =>
                              rw [hsr, List.nil_append] at hy
                              injection hy with hy1 _
                              exact absurd hy1.symm (by decide)
                            | cons y0 ys0 =>
                              rw [hsr, List.cons_append] at hy
                              injection hy with hy1 _
                              subst hy1
                              rcases hazFree_strip r false hpfr hsr with ⟨zs, hrz, -⟩ | hp
                              · exact ⟨zs, hrz⟩
                              · exfalso
                                simp [hazPair, digitDot] at hp
                                have h11 : p.isDigit = true ∨ p = '.' := by
                                  simpa [digitDot] using hpdd
                                rcases h11 with h12 | h12
                                · rw [hp.1.1] at h12; simp at h12
                                · exact hp.1.2 h12
                          have hlex2 : lexLit ((c :: lit2) ++ (stripWs r ++ [')']))
                              = some (q, stripWs r ++ [')']) := hext _ hXd hXdot
                          rw [lexChars_digit c (lit2 ++ (stripWs r ++ [')'])) q
                            (stripWs r ++ [')']) (by simpa [digitDot] using hdd) hlex2]
                          have hrlen : r.length ≤ f := by
                            have : r.length ≤ cs.length := by
                              rw [hcs, List.length_append]
                              omega
                            omega
                          rw [ih r (some (p, false)) ts1 hrlen hpfr hrr]
                          simp [convTok]
                    · exact absurd h (by simp [specLexGo, hws, h1, h2, h3, h4, h5, h6, hdd])

/-! ### Simulation: the code parser follows the spec parser

`rel v n` says the JavaScript value `n` agrees with the spec value `v`
whenever the latter is defined; a spec division by zero leaves `v` as
`none`, while the code value may be any special value. -/

def rel (v : Option ℚ) (n : JsNum) : Prop := ∀ q, v = some q → n = JsNum.fin q

theorem rel_refl (q : ℚ) : rel (some q) (JsNum.fin q) := by
  intro q2 hq
  injection hq with hq2
  rw [hq2]

theorem rel_neg {v : Option ℚ} {n : JsNum} (h : rel v n) : rel (specNeg v) n.neg := by
  intro q hq
  cases v with
  | none => exact absurd hq (by simp [specNeg])
  | some x =>
    have hx : (-x : ℚ) = q := by simpa [specNeg] using hq
    rw [h x rfl]
    show JsNum.fin (-x) = JsNum.fin q
    rw [hx]

theorem rel_add {a b : Option ℚ} {na nb : JsNum} (ha : rel a na) (hb : rel b nb) :
    rel (specAdd a b) (na.add nb) := by
  intro q hq
  cases a with
  | none => exact absurd hq (by simp [specAdd])
  | some x =>
    cases b with
    | none => exact absurd hq (by simp [specAdd])
    | some y =>
      have hxy : (x + y : ℚ) = q := by simpa [specAdd] using hq
      rw [ha x rfl, hb y rfl]
      show JsNum.fin (x + y) = JsNum.fin q
      rw [hxy]

theorem rel_sub {a b : Option ℚ} {na nb : JsNum} (ha : rel a na) (hb : rel b nb) :
    rel (specSub a b) (na.sub nb) := by
  intro q hq
  cases a with
  | none => exact absurd hq (by simp [specSub])
  | some x =>
    cases b with
    | none => exact absurd hq (by simp [specSub])
    | some y =>
      have hxy : (x - y : ℚ) = q := by simpa [specSub] using hq
      rw [ha x rfl, hb y rfl]
      show JsNum.fin (x + -y) = JsNum.fin q
      rw [← sub_eq_add_neg, hxy]

theorem rel_mul {a b : Option ℚ} {na nb : JsNum} (ha : rel a na) (hb : rel b nb) :
    rel (specMul a b) (na.mul nb) := by
  intro q hq
  cases a with
  | none => exact absurd hq (by simp [specMul])
  | some x =>
    cases b with
    | none => exact absurd hq (by simp [specMul])
    | some y =>
      have hxy : (x * y : ℚ) = q := by simpa [specMul] using hq
      rw [ha x rfl, hb y rfl]
      show JsNum.fin (x * y) = JsNum.fin q
      rw [hxy]

theorem rel_div {a b : Option ℚ} {na nb : JsNum} (ha : rel a na) (hb : rel b nb) :
    rel (specDiv a b) (na.div nb) := by
  intro q hq
  cases a with
  | none => exact absurd hq (by simp [specDiv])
  | some x =>
    cases b with
    | none => exact absurd hq (by simp [specDiv])
    | some y =>
      by_cases hy : y = 0
      · exact absurd hq (by simp [specDiv, hy])
      · have hxy : (x / y : ℚ) = q := by simpa [specDiv, hy] using hq
        rw [ha x rfl, hb y rfl]
        show (if y = 0 then (if x = 0 then JsNum.nan else if 0 < x then JsNum.inf else JsNum.ninf)
              else JsNum.fin (x / y)) = JsNum.fin q
        rw [if_neg hy, hxy]

/-- The code parser, run on the spec tokens converted and followed by the
closing parenthesis, reaches the same result as the spec parser at the same
fuel, with values related by `rel`. -/
theorem sim : ∀ f : ℕ,
    (∀ ts v r, specP f ts = some (v, r) →
      ∃ n, parseP f (ts.map convTok ++ [Tok.rparen])
        = some (n, r.map convTok ++ [Tok.rparen]) ∧ rel v n) ∧
    (∀ ts v r, specU f ts = some (v, r) →
      ∃ n, parseU f (ts.map convTok ++ [Tok.rparen])
        = some (n, r.map convTok ++ [Tok.rparen]) ∧ rel v n) ∧
    (∀ va ts v r na, specTLoop f va ts = some (v, r) → rel va na →
      ∃ n, parseTLoop f na (ts.map convTok ++ [Tok.rparen])
        = some (n, r.map convTok ++ [Tok.rparen]) ∧ rel v n) ∧
    (∀ ts v r, specT f ts = some (v, r) →
      ∃ n, parseT f (ts.map convTok ++ [Tok.rparen])
        = some (n, r.map convTok ++ [Tok.rparen]) ∧ rel v n) ∧
    (∀ va ts v r na, specELoop f va ts = some (v, r) → rel va na →
      ∃ n, parseELoop f na (ts.map convTok ++ [Tok.rparen])
        = some (n, r.map convTok ++ [Tok.rparen]) ∧ rel v n) ∧
    (∀ ts v r, specE f ts = some (v, r) →
      ∃ n, parseE f (ts.map convTok ++ [Tok.rparen])
        = some (n, r.map convTok ++ [Tok.rparen]) ∧ rel v n) := by
  intro f
  induction f with
  | zero =>
    exact ⟨fun ts v r h => absurd h (by simp [specP]),
           fun ts v r h => absurd h (by simp [specU]),
           fun va ts v r na h _ => absurd h (by simp [specTLoop]),
           fun ts v r h => absurd h (by simp [specT]),
           fun va ts v r na h _ => absurd h (by simp [specELoop]),
           fun ts v r h => absurd h (by simp [specE])⟩
  | succ f ih =>
    obtain ⟨ihP, ihU, ihTL, ihT, ihEL, ihE⟩ := ih
    refine ⟨?_, ?_, ?_, ?_, ?_, ?_⟩
    · -- primary
      intro ts v r h
      cases ts with
      | nil => rw [specP_nil] at h; exact Option.noConfusion h
      | cons t ts1 =>
        cases t with
        | num q0 =>
          have he : specP (f + 1) (SpecTok.num q0 :: ts1) = some (some q0, ts1) := rfl
          rw [he] at h
          simp only [Option.some.injEq, Prod.mk.injEq] at h
          obtain ⟨rfl, rfl⟩ := h
          exact ⟨JsNum.fin q0, rfl, rel_refl q0⟩
        | lparen =>
          have he : specP (f + 1) (SpecTok.lparen :: ts1)
              = (match specE f ts1 with
                 | some (v1, SpecTok.rparen :: ts2) => some (v1, ts2)
                 | _ => none) := rfl
          rw [he] at h
          split at h
          · next v1 ts2 hE =>
            simp only [Option.some.injEq, Prod.mk.injEq] at h
            obtain ⟨rfl, rfl⟩ := h
            obtain ⟨n1, hpe, hrel⟩ := ihE ts1 v1 (SpecTok.rparen :: ts2) hE
            refine ⟨n1, ?_, hrel⟩
            show (match parseE f (ts1.map convTok ++ [Tok.rparen]) with
                  | some (v2, Tok.rparen :: ts3) => some (v2, ts3)
                  | _ => none) = some (n1, ts2.map convTok ++ [Tok.rparen])
            rw [hpe]
            rfl
          · next hne =>
            exact absurd h (by simp)
        | plus =>
          rw [show specP (f + 1) (SpecTok.plus :: ts1) = none from rfl] at h
          exact Option.noConfusion h
        | minus =>
          rw [show specP (f + 1) (SpecTok.minus :: ts1) = none from rfl] at h
          exact Option.noConfusion h
        | star =>
          rw [show specP (f + 1) (SpecTok.star :: ts1) = none from rfl] at h
          exact Option.noConfusion h
        | slash =>
          rw [show specP (f + 1) (SpecTok.slash :: ts1) = none from rfl] at h
          exact Option.noConfusion h
        | rparen =>
          rw [show specP (f + 1) (SpecTok.rparen :: ts1) = none from rfl] at h
          exact Option.noConfusion h
    · -- unary
      intro ts v r h
      cases ts with
      | nil => rw [specU_nil] at h; exact Option.noConfusion h
      | cons t ts1 =>
        cases t with
        | plus =>
          have he : specU (f + 1) (SpecTok.plus :: ts1) = specU f ts1 := rfl
          rw [he] at h
          obtain ⟨n1, hp, hrel⟩ := ihU ts1 v r h
          exact ⟨n1, hp, hrel⟩
        | minus =>
          have he : specU (f + 1) (SpecTok.minus :: ts1)
              = (specU f ts1).map (fun vr => (specNeg vr.1, vr.2)) := rfl
          rw [he] at h
          rcases hu : specU f ts1 with _ | vr
          · rw [hu] at h; exact Option.noConfusion h
          · obtain ⟨v1, r1⟩ := vr
            rw [hu] at h
            have h2 : some (specNeg v1, r1) = some (v, r) := h
            simp only [Option.some.injEq, Prod.mk.injEq] at h2
            obtain ⟨rfl, rfl⟩ := h2
            obtain ⟨n1, hp, hrel⟩ := ihU ts1 v1 r1 hu
            refine ⟨n1.neg, ?_, rel_neg hrel⟩
            show (parseU f (ts1.map convTok ++ [Tok.rparen])).map (fun vr => (vr.1.neg, vr.2))
                = some (n1.neg, r1.map convTok ++ [Tok.rparen])
            rw [hp]
            rfl
        | num q0 =>
          have he : specU (f + 1) (SpecTok.num q0 :: ts1)
              = specP f (SpecTok.num q0 :: ts1) := rfl
          rw [he] at h
          exact ihP _ v r h
        | lparen =>
          have he : specU (f + 1) (SpecTok.lparen :: ts1)
              = specP f (SpecTok.lparen :: ts1) := rfl
          rw [he] at h
          exact ihP _ v r h
        | star =>
          have he : specU (f + 1) (SpecTok.star :: ts1)
              = specP f (SpecTok.star :: ts1) := rfl
          rw [he] at h
          exact ihP _ v r h
        | slash =>
          have he : specU (f + 1) (SpecTok.slash :: ts1)
              = specP f (SpecTok.slash :: ts1) := rfl
          rw [he] at h
          exact ihP _ v r h
        | rparen =>
          have he : specU (f + 1) (SpecTok.rparen :: ts1)
              = specP f (SpecTok.rparen :: ts1) := rfl
          rw [he] at h
          exact ihP _ v r h
    · -- multiplicative loop
      intro va ts v r na h hva
      cases ts with
      | nil =>
        have he : specTLoop (f + 1) va [] = some (va, []) := rfl
        rw [he] at h
        simp only [Option.some.injEq, Prod.mk.injEq] at h
        obtain ⟨rfl, rfl⟩ := h
        exact ⟨na, rfl, hva⟩
      | cons t ts1 =>
        cases t with
        | star =>
          have he : specTLoop (f + 1) va (SpecTok.star :: ts1)
              = (match specU f ts1 with
                 | some (v1, r1) => specTLoop f (specMul va v1) r1
                 | none => none) := rfl
          rw [he] at h
          rcases hu : specU f ts1 with _ | vr
          · rw [hu] at h; exact Option.noConfusion h
          · obtain ⟨v1, r1⟩ := vr
            rw [hu] at h
            have h2 : specTLoop f (specMul va v1) r1 = some (v, r) := h
            obtain ⟨n1, hpu, hrel1⟩ := ihU ts1 v1 r1 hu
            obtain ⟨n2, hptl, hrel2⟩ := ihTL (specMul va v1) r1 v r (na.mul n1) h2
              (rel_mul hva hrel1)
            refine ⟨n2, ?_, hrel2⟩
            show (match parseU f (ts1.map convTok ++ [Tok.rparen]) with
                  | some (v2, r2) => parseTLoop f (na.mul v2) r2
                  | none => none) = some (n2, r.map convTok ++ [Tok.rparen])
            rw [hpu]
            exact hptl
        | slash =>
          have he : specTLoop (f + 1) va (SpecTok.slash :: ts1)
              = (match specU f ts1 with
                 | some (v1, r1) => specTLoop f (specDiv va v1) r1
                 | none => none) := rfl
          rw [he] at h
          rcases hu : specU f ts1 with _ | vr
          · rw [hu] at h; exact Option.noConfusion h
          · obtain ⟨v1, r1⟩ := vr
            rw [hu] at h
            have h2 : specTLoop f (specDiv va v1) r1 = some (v, r) := h
            obtain ⟨n1, hpu, hrel1⟩ := ihU ts1 v1 r1 hu
            obtain ⟨n2, hptl, hrel2⟩ := ihTL (specDiv va v1) r1 v r (na.div n1) h2
              (rel_div hva hrel1)
            refine ⟨n2, ?_, hrel2⟩
            show (match parseU f (ts1.map convTok ++ [Tok.rparen]) with
                  | some (v2, r2) => parseTLoop f (na.div v2) r2
                  | none => none) = some (n2, r.map convTok ++ [Tok.rparen])
            rw [hpu]
            exact hptl
        | num q0 =>
          have he : specTLoop (f + 1) va (SpecTok.num q0 :: ts1)
              = some (va, SpecTok.num q0 :: ts1) := rfl
          rw [he] at h
          simp only [Option.some.injEq, Prod.mk.injEq] at h
          obtain ⟨rfl, rfl⟩ := h
          exact ⟨na, rfl, hva⟩
        | plus =>
          have he : specTLoop (f + 1) va (SpecTok.plus :: ts1)
              = some (va, SpecTok.plus :: ts1) := rfl
          rw [he] at h
          simp only [Option.some.injEq, Prod.mk.injEq] at h
          obtain ⟨rfl, rfl⟩ := h
          exact ⟨na, rfl, hva⟩
        | minus =>
          have he : specTLoop (f + 1) va (SpecTok.minus :: ts1)
              = some (va, SpecTok.minus :: ts1) := rfl
          rw [he] at h
          simp only [Option.some.injEq, Prod.mk.injEq] at h
          obtain ⟨rfl, rfl⟩ := h
          exact ⟨na, rfl, hva⟩
        | lparen =>
          have he : specTLoop (f + 1) va (SpecTok.lparen :: ts1)
              = some (va, SpecTok.lparen :: ts1) := rfl
          rw [he] at h
          simp only [Option.some.injEq, Prod.mk.injEq] at h
          obtain ⟨rfl, rfl⟩ := h
          exact ⟨na, rfl, hva⟩
        | rparen =>
          have he : specTLoop (f + 1) va (SpecTok.rparen :: ts1)
              = some (va, SpecTok.rparen :: ts1) := rfl
          rw [he] at h
          simp only [Option.some.injEq, Prod.mk.injEq] at h
          obtain ⟨rfl, rfl⟩ := h
          exact ⟨na, rfl, hva⟩
    · -- multiplicative chain
      intro ts v r h
      have he : specT (f + 1) ts
          = (match specU f ts with
             | some (v1, r1) => specTLoop f v1 r1
             | none => none) := rfl
      rw [he] at h
      rcases hu : specU f ts with _ | vr
      · rw [hu] at h; exact Option.noConfusion h
      · obtain ⟨v1, r1⟩ := vr
        rw [hu] at h
        have h2 : specTLoop f v1 r1 = some (v, r) := h
        obtain ⟨n1, hpu, hrel1⟩ := ihU ts v1 r1 hu
        obtain ⟨n2, hptl, hrel2⟩ := ihTL v1 r1 v r n1 h2 hrel1
        refine ⟨n2, ?_, hrel2⟩
        show (match parseU f (ts.map convTok ++ [Tok.rparen]) with
              | some (v2, r2) => parseTLoop f v2 r2
              | none => none) = some (n2, r.map convTok ++ [Tok.rparen])
        rw [hpu]
        exact hptl
    · -- additive loop
      intro va ts v r na h hva
      cases ts with
      | nil =>
        have he : specELoop (f + 1) va [] = some (va, []) := rfl
        rw [he] at h
        simp only [Option.some.injEq, Prod.mk.injEq] at h
        obtain ⟨rfl, rfl⟩ := h
        exact ⟨na, rfl, hva⟩
      | cons t ts1 =>
        cases t with
        | plus =>
          have he : specELoop (f + 1) va (SpecTok.plus :: ts1)
              = (match specT f ts1 with
                 | some (v1, r1) => specELoop f (specAdd va v1) r1
                 | none => none) := rfl
          rw [he] at h
          rcases hu : specT f ts1 with _ | vr
          · rw [hu] at h; exact Option.noConfusion h
          · obtain ⟨v1, r1⟩ := vr
            rw [hu] at h
            have h2 : specELoop f (specAdd va v1) r1 = some (v, r) := h
            obtain ⟨n1, hpt, hrel1⟩ := ihT ts1 v1 r1 hu
            obtain ⟨n2, hpel, hrel2⟩ := ihEL (specAdd va v1) r1 v r (na.add n1) h2
              (rel_add hva hrel1)
            refine ⟨n2, ?_, hrel2⟩
            show (match parseT f (ts1.map convTok ++ [Tok.rparen]) with
                  | some (v2, r2) => parseELoop f (na.add v2) r2
                  | none => none) = some (n2, r.map convTok ++ [Tok.rparen])
            rw [hpt]
            exact hpel
        | minus =>
          have he : specELoop (f + 1) va (SpecTok.minus :: ts1)
              = (match specT f ts1 with
                 | some (v1, r1) => specELoop f (specSub va v1) r1
                 | none => none) := rfl
          rw [he] at h
          rcases hu : specT f ts1 with _ | vr
          · rw [hu] at h; exact Option.noConfusion h
          · obtain ⟨v1, r1⟩ := vr
            rw [hu] at h
            have h2 : specELoop f (specSub va v1) r1 = some (v, r) := h
            obtain ⟨n1, hpt, hrel1⟩ := ihT ts1 v1 r1 hu
            obtain ⟨n2, hpel, hrel2⟩ := ihEL (specSub va v1) r1 v r (na.sub n1) h2
              (rel_sub hva hrel1)
            refine ⟨n2, ?_, hrel2⟩
            show (match parseT f (ts1.map convTok ++ [Tok.rparen]) with
                  | some (v2, r2) => parseELoop f (na.sub v2) r2
                  | none => none) = some (n2, r.map convTok ++ [Tok.rparen])
            rw [hpt]
            exact hpel
        | num q0 =>
          have he : specELoop (f + 1) va (SpecTok.num q0 :: ts1)
              = some (va, SpecTok.num q0 :: ts1) := rfl
          rw [he] at h
          simp only [Option.some.injEq, Prod.mk.injEq] at h
          obtain ⟨rfl, rfl⟩ := h
          exact ⟨na, rfl, hva⟩
        | star =>
          have he : specELoop (f + 1) va (SpecTok.star :: ts1)
              = some (va, SpecTok.star :: ts1) := rfl
          rw [he] at h
          simp only [Option.some.injEq, Prod.mk.injEq] at h
          obtain ⟨rfl, rfl⟩ := h
          exact ⟨na, rfl, hva⟩
        | slash =>
          have he : specELoop (f + 1) va (SpecTok.slash :: ts1)
              = some (va, SpecTok.slash :: ts1) := rfl
          rw [he] at h
          simp only [Option.some.injEq, Prod.mk.injEq] at h
          obtain ⟨rfl, rfl⟩ := h
          exact ⟨na, rfl, hva⟩
        | lparen =>
          have he : specELoop (f + 1) va (SpecTok.lparen :: ts1)
              = some (va, SpecTok.lparen :: ts1) := rfl
          rw [he] at h
          simp only [Option.some.injEq, Prod.mk.injEq] at h
          obtain ⟨rfl, rfl⟩ := h
          exact ⟨na, rfl, hva⟩
        | rparen =>
          have he : specELoop (f + 1) va (SpecTok.rparen :: ts1)
              = some (va, SpecTok.rparen :: ts1) := rfl
          rw [he] at h
          simp only [Option.some.injEq, Prod.mk.injEq] at h
          obtain ⟨rfl, rfl⟩ := h
          exact ⟨na, rfl, hva⟩
    · -- additive chain
      intro ts v r h
      have he : specE (f + 1) ts
          = (match specT f ts with
             | some (v1, r1) => specELoop f v1 r1
             | none => none) := rfl
      rw [he] at h
      rcases hu : specT f ts with _ | vr
      · rw [hu] at h; exact Option.noConfusion h
      · obtain ⟨v1, r1⟩ := vr
        rw [hu] at h
        have h2 : specELoop f v1 r1 = some (v, r) := h
        obtain ⟨n1, hpt, hrel1⟩ := ihT ts v1 r1 hu
        obtain ⟨n2, hpel, hrel2⟩ := ihEL v1 r1 v r n1 h2 hrel1
        refine ⟨n2, ?_, hrel2⟩
        show (match parseT f (ts.map convTok ++ [Tok.rparen]) with
              | some (v2, r2) => parseELoop f v2 r2
              | none => none) = some (n2, r.map convTok ++ [Tok.rparen])
        rw [hpt]
        exact hpel

/-- Exact-arithmetic core of the C3 analysis: on a hazard-free string that
the spec evaluator accepts, the embedded `tryEvaluate` computes the same
exact rational value. -/
theorem tryEvaluate_exact_of_hazFree (s : String) (q : ℚ)
    (hspec : specArithValue s = some q) (hhaz : noMergeHazard s = true) :
    tryEvaluate s = some q := by
  have hlexE : ∃ ts, specLex s.data = some ts ∧
      specE (8 * ts.length + 20) ts = some (some q, []) := by
    unfold specArithValue at hspec
    rcases hlex : specLex s.data with _ | ts
    · rw [hlex] at hspec
      have h2 : (none : Option ℚ) = some q := hspec
      exact Option.noConfusion h2
    · rw [hlex] at hspec
      have hspec2 : (match specE (8 * ts.length + 20) ts with
          | some (some q2, []) => some q2
          | _ => none) = some q := hspec
      rcases hE : specE (8 * ts.length + 20) ts with _ | vr
      · rw [hE] at hspec2
        have h2 : (none : Option ℚ) = some q := hspec2
        exact Option.noConfusion h2
      · obtain ⟨v, r⟩ := vr
        rw [hE] at hspec2
        cases v with
        | none =>
          cases r with
          | nil =>
            have h2 : (none : Option ℚ) = some q := hspec2
            exact Option.noConfusion h2
          | cons t r2 =>
            have h2 : (none : Option ℚ) = some q := hspec2
            exact Option.noConfusion h2
        | some q2 =>
          cases r with
          | nil =>
            have h2 : some q2 = some q := hspec2
            injection h2 with h3
            rw [← h3]
            exact ⟨ts, rfl, hE⟩
          | cons t r2 =>
            have h2 : (none : Option ℚ) = some q := hspec2
            exact Option.noConfusion h2
  obtain ⟨ts, hlex, hE⟩ := hlexE
  have hbridge := bridgeM s.data.length s.data none ts (le_refl _) hhaz hlex
  have hkept := specLex_kept s.data.length s.data ts hlex
  have hclean : cleanChars s.data = stripWs s.data := cleanChars_eq_stripWs hkept
  have hne : ¬(stripWs s.data = []) := by
    intro hcon
    have hts : ts = [] := specLexGo_all_ws s.data.length s.data ts hlex hcon
    rw [hts, specE_nil] at hE
    exact Option.noConfusion hE
  obtain ⟨n, hpe, hrel⟩ := (sim (8 * ts.length + 20)).2.2.2.2.2 ts (some q) [] hE
  have hn : n = JsNum.fin q := hrel q rfl
  subst hn
  have hpe2 : parseE (8 * ts.length + 20) (ts.map convTok ++ [Tok.rparen])
      = some (JsNum.fin q, [Tok.rparen]) := by simpa using hpe
  have h1 : parseP (8 * ts.length + 20 + 1) (Tok.lparen :: (ts.map convTok ++ [Tok.rparen]))
      = some (JsNum.fin q, []) := by
    show (match parseE (8 * ts.length + 20) (ts.map convTok ++ [Tok.rparen]) with
          | some (v2, Tok.rparen :: ts3) => some (v2, ts3)
          | _ => none) = some (JsNum.fin q, [])
    rw [hpe2]
  have h2 : parseU (8 * ts.length + 20 + 2) (Tok.lparen :: (ts.map convTok ++ [Tok.rparen]))
      = some (JsNum.fin q, []) := by
    show parseP (8 * ts.length + 20 + 1) (Tok.lparen :: (ts.map convTok ++ [Tok.rparen]))
        = some (JsNum.fin q, [])
    exact h1
  have h3 : parseT (8 * ts.length + 20 + 3) (Tok.lparen :: (ts.map convTok ++ [Tok.rparen]))
      = some (JsNum.fin q, []) := by
    show (match parseU (8 * ts.length + 20 + 2)
            (Tok.lparen :: (ts.map convTok ++ [Tok.rparen])) with
          | some (v2, r2) => parseTLoop (8 * ts.length + 20 + 2) v2 r2
          | none => none) = some (JsNum.fin q, [])
    rw [h2]
    show parseTLoop (8 * ts.length + 20 + 2) (JsNum.fin q) [] = some (JsNum.fin q, [])
    rfl
  have h4 : parseE (8 * ts.length + 20 + 4) (Tok.lparen :: (ts.map convTok ++ [Tok.rparen]))
      = some (JsNum.fin q, []) := by
    show (match parseT (8 * ts.length + 20 + 3)
            (Tok.lparen :: (ts.map convTok ++ [Tok.rparen])) with
          | some (v2, r2) => parseELoop (8 * ts.length + 20 + 3) v2 r2
          | none => none) = some (JsNum.fin q, [])
    rw [h3]
    show parseELoop (8 * ts.length + 20 + 3) (JsNum.fin q) [] = some (JsNum.fin q, [])
    rfl
  have heval : evalClean (stripWs s.data) = some (JsNum.fin q) := by
    unfold evalClean
    rw [lexChars_lparen, hbridge]
    show evalTokens (Tok.lparen :: (ts.map convTok ++ [Tok.rparen])) = some (JsNum.fin q)
    unfold evalTokens
    rw [show 8 * (Tok.lparen :: (ts.map convTok ++ [Tok.rparen])).length + 8
        = 8 * ts.length + 20 + 4 from by
      simp only [List.length_cons, List.length_append, List.length_map, List.length_nil]
      omega]
    rw [h4]
  show (if cleanChars s.data = [] then none
        else match evalClean (cleanChars s.data) with
          | some (JsNum.fin q2) => some q2
          | _ => none) = some q
  rw [hclean, if_neg hne, heval]

/-! ### Exact binary64 representability

The finite IEEE-754 binary64 doubles are exactly the rationals m·2^e with
m, e integers, |m| < 2^53 and -1074 ≤ e ≤ 971; equivalently (for q ≠ 0,
written in lowest terms n / 2^k with n = ±odd·2^t): odd < 2^53, t - k ≥
-1074 and |q| < 2^1024.  On an expression all of whose literals and
intermediate results are such values, every correctly rounded binary64
operation returns its exact rational result (rounding a representable value
is the identity), so the engine's evaluation coincides with the exact one.
The amended claim C3 quantifies only over such expressions. -/

def isPow2Go : ℕ → ℕ → Bool
  | _, 1 => true
  | 0, _ => false
  | f + 1, n => decide (n % 2 = 0) && isPow2Go f (n / 2)

def isPow2 (n : ℕ) : Bool := isPow2Go n n

def oddPartGo : ℕ → ℕ → ℕ
  | _, 0 => 0
  | 0, n => n
  | f + 1, n => if n % 2 = 0 then oddPartGo f (n / 2) else n

/-- The largest odd divisor. -/
def oddPart (n : ℕ) : ℕ := oddPartGo n n

/-- `q` is the exact value of a finite IEEE-754 binary64 double. -/
def isRep (q : ℚ) : Bool :=
  decide (q = 0) ||
  (isPow2 q.den &&
   decide (oddPart q.num.natAbs < 2 ^ 53) &&
   decide (q.den ≤ (q.num.natAbs / oddPart q.num.natAbs) * 2 ^ 1074) &&
   decide (q.num.natAbs < 2 ^ 1024 * q.den))

example : isRep (1 / 2 : ℚ) = true := by decide!
example : isRep (-(3 / 2) : ℚ) = true := by decide!
example : isRep (1 / 10 : ℚ) = false := by decide!
example : isRep (1 / 3 : ℚ) = false := by decide!

def repOk : Option ℚ → Bool
  | none => true
  | some x => isRep x

/-! The spec evaluator restricted to the binary64-exact domain: every
numeric literal and every produced intermediate value must satisfy `isRep`,
otherwise the whole evaluation is rejected. -/

mutual

def specP64 : ℕ → List SpecTok → Option (Option ℚ × List SpecTok)
  | 0, _ => none
  | _ + 1, SpecTok.num q :: ts => if isRep q then some (some q, ts) else none
  | f + 1, SpecTok.lparen :: ts =>
    match specE64 f ts with
    | some (v, SpecTok.rparen :: ts2) => some (v, ts2)
    | _ => none
  | _ + 1, _ => none

def specU64 : ℕ → List SpecTok → Option (Option ℚ × List SpecTok)
  | 0, _ => none
  | f + 1, SpecTok.plus :: ts => specU64 f ts
  | f + 1, SpecTok.minus :: ts =>
    match specU64 f ts with
    | some (v, r) => if repOk (specNeg v) then some (specNeg v, r) else none
    | none => none
  | f + 1, ts => specP64 f ts

def specT64 : ℕ → List SpecTok → Option (Option ℚ × List SpecTok)
  | 0, _ => none
  | f + 1, ts =>
    match specU64 f ts with
    | some (v, r) => specTLoop64 f v r
    | none => none

def specTLoop64 : ℕ → Option ℚ → List SpecTok → Option (Option ℚ × List SpecTok)
  | 0, _, _ => none
  | f + 1, acc, SpecTok.star :: ts =>
    match specU64 f ts with
    | some (v, r) =>
      if repOk (specMul acc v) then specTLoop64 f (specMul acc v) r else none
    | none => none
  | f + 1, acc, SpecTok.slash :: ts =>
    match specU64 f ts with
    | some (v, r) =>
      if repOk (specDiv acc v) then specTLoop64 f (specDiv acc v) r else none
    | none => none
  | _ + 1, acc, ts => some (acc, ts)

def specE64 : ℕ → List SpecTok → Option (Option ℚ × List SpecTok)
  | 0, _ => none
  | f + 1, ts =>
    match specT64 f ts with
    | some (v, r) => specELoop64 f v r
    | none => none

def specELoop64 : ℕ → Option ℚ → List SpecTok → Option (Option ℚ × List SpecTok)
  | 0, _, _ => none
  | f + 1, acc, SpecTok.plus :: ts =>
    match specT64 f ts with
    | some (v, r) =>
      if repOk (specAdd acc v) then specELoop64 f (specAdd acc v) r else none
    | none => none
  | f + 1, acc, SpecTok.minus :: ts =>
    match specT64 f ts with
    | some (v, r) =>
      if repOk (specSub acc v) then specELoop64 f (specSub acc v) r else none
    | none => none
  | _ + 1, acc, ts => some (acc, ts)

end

/-- The value of a well-formed arithmetic string of the spec grammar whose
literals and intermediate results are all exactly representable binary64
doubles; `none` otherwise. -/
def specArithValue64 (s : String) : Option ℚ :=
  match specLex s.data with
  | some ts =>
    match specE64 (8 * ts.length + 20) ts with
    | some (some q, []) => some q
    | _ => none
  | none => none

example : specArithValue64 "3*0.5+3*(-1)" = some (-(3 / 2) : ℚ) := by decide!
example : specArithValue64 "(2+3)*4 - 1/2" = some (39 / 2 : ℚ) := by decide!
example : specArithValue64 "0.1+0.2" = none := by decide!
example : specArithValue64 "2 + 2" = some 4 := by decide!
example : specArithValue64 "2**3" = none := by decide!
example : specArithValue64 "1/*2*/+3" = none := by decide!

theorem specP64_nil (f : ℕ) : specP64 f [] = none := by cases f <;> rfl

/-- Dropping the representability guards is monotone: every success of the
restricted evaluator is a success of the unrestricted one, with the same
value and remainder. -/
theorem spec64_sub : ∀ f : ℕ,
    (∀ ts v r, specP64 f ts = some (v, r) → specP f ts = some (v, r)) ∧
    (∀ ts v r, specU64 f ts = some (v, r) → specU f ts = some (v, r)) ∧
    (∀ va ts v r, specTLoop64 f va ts = some (v, r) → specTLoop f va ts = some (v, r)) ∧
    (∀ ts v r, specT64 f ts = some (v, r) → specT f ts = some (v, r)) ∧
    (∀ va ts v r, specELoop64 f va ts = some (v, r) → specELoop f va ts = some (v, r)) ∧
    (∀ ts v r, specE64 f ts = some (v, r) → specE f ts = some (v, r)) := by
  intro f
  induction f with
  | zero =>
    exact ⟨fun ts v r h => absurd h (by simp [specP64]),
           fun ts v r h => absurd h (by simp [specU64]),
           fun va ts v r h => absurd h (by simp [specTLoop64]),
           fun ts v r h => absurd h (by simp [specT64]),
           fun va ts v r h => absurd h (by simp [specELoop64]),
           fun ts v r h => absurd h (by simp [specE64])⟩
  | succ f ih =>
    obtain ⟨ihP, ihU, ihTL, ihT, ihEL, ihE⟩ := ih
    refine ⟨?_, ?_, ?_, ?_, ?_, ?_⟩
    · intro ts v r h
      cases ts with
      | nil =>
        rw [show specP64 (f + 1) ([] : List SpecTok) = none from rfl] at h
        exact Option.noConfusion h
      | cons t ts1 =>
        cases t with
        | num q0 =>
          have he : specP64 (f + 1) (SpecTok.num q0 :: ts1)
              = (if isRep q0 then some (some q0, ts1) else none) := rfl
          rw [he] at h
          split at h
          · simp only [Option.some.injEq, Prod.mk.injEq] at h
            obtain ⟨rfl, rfl⟩ := h
            rfl
          · exact Option.noConfusion h
        | lparen =>
          have he : specP64 (f + 1) (SpecTok.lparen :: ts1)
              = (match specE64 f ts1 with
                 | some (v1, SpecTok.rparen :: ts2) => some (v1, ts2)
                 | _ => none) := rfl
          rw [he] at h
          split at h
          · next v1 ts2 hE =>
            simp only [Option.some.injEq, Prod.mk.injEq] at h
            obtain ⟨rfl, rfl⟩ := h
            show (match specE f ts1 with
                  | some (v2, SpecTok.rparen :: ts3) => some (v2, ts3)
                  | _ => none) = some (v1, ts2)
            rw [ihE ts1 v1 (SpecTok.rparen :: ts2) hE]
          · exact Option.noConfusion h
        | plus =>
          rw [show specP64 (f + 1) (SpecTok.plus :: ts1) = none from rfl] at h
          exact Option.noConfusion h
        | minus =>
          rw [show specP64 (f + 1) (SpecTok.minus :: ts1) = none from rfl] at h
          exact Option.noConfusion h
        | star =>
          rw [show specP64 (f + 1) (SpecTok.star :: ts1) = none from rfl] at h
          exact Option.noConfusion h
        | slash =>
          rw [show specP64 (f + 1) (SpecTok.slash :: ts1) = none from rfl] at h
          exact Option.noConfusion h
        | rparen =>
          rw [show specP64 (f + 1) (SpecTok.rparen :: ts1) = none from rfl] at h
          exact Option.noConfusion h
    · intro ts v r h
      cases ts with
      | nil =>
        rw [show specU64 (f + 1) ([] : List SpecTok) = specP64 f [] from rfl] at h
        rw [show specP64 f ([] : List SpecTok) = none from specP64_nil f] at h
        exact Option.noConfusion h
      | cons t ts1 =>
        cases t with
        | plus => exact ihU ts1 v r h
        | minus =>
          have he : specU64 (f + 1) (SpecTok.minus :: ts1)
              = (match specU64 f ts1 with
                 | some (v1, r1) =>
                   if repOk (specNeg v1) then some (specNeg v1, r1) else none
                 | none => none) := rfl
          rw [he] at h
          rcases hu : specU64 f ts1 with _ | vr
          · rw [hu] at h; exact Option.noConfusion h
          · obtain ⟨v1, r1⟩ := vr
            rw [hu] at h
            have h2 : (if repOk (specNeg v1) then some (specNeg v1, r1) else none)
                = some (v, r) := h
            split at h2
            · simp only [Option.some.injEq, Prod.mk.injEq] at h2
              obtain ⟨rfl, rfl⟩ := h2
              show (specU f ts1).map (fun vr => (specNeg vr.1, vr.2)) = some (specNeg v1, r1)
              rw [ihU ts1 v1 r1 hu]
              rfl
            · exact Option.noConfusion h2
        | num q0 => exact ihP _ v r h
        | lparen => exact ihP _ v r h
        | star => exact ihP _ v r h
        | slash => exact ihP _ v r h
        | rparen => exact ihP _ v r h
    · intro va ts v r h
      cases ts with
      | nil =>
        have he : specTLoop64 (f + 1) va [] = some (va, []) := rfl
        rw [he] at h
        simp only [Option.some.injEq, Prod.mk.injEq] at h
        obtain ⟨rfl, rfl⟩ := h
        rfl
      | cons t ts1 =>
        cases t with
        | star =>
          have he : specTLoop64 (f + 1) va (SpecTok.star :: ts1)
              = (match specU64 f ts1 with
                 | some (v1, r1) =>
                   if repOk (specMul va v1) then specTLoop64 f (specMul va v1) r1 else none
                 | none => none) := rfl
          rw [he] at h
          rcases hu : specU64 f ts1 with _ | vr
          · rw [hu] at h; exact Option.noConfusion h
          · obtain ⟨v1, r1⟩ := vr
            rw [hu] at h
            have h2 : (if repOk (specMul va v1)
                then specTLoop64 f (specMul va v1) r1 else none) = some (v, r) := h
            split at h2
            · show (match specU f ts1 with
                    | some (v2, r2) => specTLoop f (specMul va v2) r2
                    | none => none) = some (v, r)
              rw [ihU ts1 v1 r1 hu]
              exact ihTL (specMul va v1) r1 v r h2
            · exact Option.noConfusion h2
        | slash =>
          have he : specTLoop64 (f + 1) va (SpecTok.slash :: ts1)
              = (match specU64 f ts1 with
                 | some (v1, r1) =>
                   if repOk (specDiv va v1) then specTLoop64 f (specDiv va v1) r1 else none
                 | none => none) := rfl
          rw [he] at h
          rcases hu : specU64 f ts1 with _ | vr
          · rw [hu] at h; exact Option.noConfusion h
          · obtain ⟨v1, r1⟩ := vr
            rw [hu] at h
            have h2 : (if repOk (specDiv va v1)
                then specTLoop64 f (specDiv va v1) r1 else none) = some (v, r) := h
            split at h2
            · show (match specU f ts1 with
                    | some (v2, r2) => specTLoop f (specDiv va v2) r2
                    | none => none) = some (v, r)
              rw [ihU ts1 v1 r1 hu]
              exact ihTL (specDiv va v1) r1 v r h2
            · exact Option.noConfusion h2
        | num q0 =>
          have he : specTLoop64 (f + 1) va (SpecTok.num q0 :: ts1)
              = some (va, SpecTok.num q0 :: ts1) := rfl
          rw [he] at h
          simp only [Option.some.injEq, Prod.mk.injEq] at h
          obtain ⟨rfl, rfl⟩ := h
          rfl
        | plus =>
          have he : specTLoop64 (f + 1) va (SpecTok.plus :: ts1)
              = some (va, SpecTok.plus :: ts1) := rfl
          rw [he] at h
          simp only [Option.some.injEq, Prod.mk.injEq] at h
          obtain ⟨rfl, rfl⟩ := h
          rfl
        | minus =>
          have he : specTLoop64 (f + 1) va (SpecTok.minus :: ts1)
              = some (va, SpecTok.minus :: ts1) := rfl
          rw [he] at h
          simp only [Option.some.injEq, Prod.mk.injEq] at h
          obtain ⟨rfl, rfl⟩ := h
          rfl
        | lparen =>
          have he : specTLoop64 (f + 1) va (SpecTok.lparen :: ts1)
              = some (va, SpecTok.lparen :: ts1) := rfl
          rw [he] at h
          simp only [Option.some.injEq, Prod.mk.injEq] at h
          obtain ⟨rfl, rfl⟩ := h
          rfl
        | rparen =>
          have he : specTLoop64 (f + 1) va (SpecTok.rparen :: ts1)
              = some (va, SpecTok.rparen :: ts1) := rfl
          rw [he] at h
          simp only [Option.some.injEq, Prod.mk.injEq] at h
          obtain ⟨rfl, rfl⟩ := h
          rfl
    · intro ts v r h
      have he : specT64 (f + 1) ts
          = (match specU64 f ts with
             | some (v1, r1) => specTLoop64 f v1 r1
             | none => none) := rfl
      rw [he] at h
      rcases hu : specU64 f ts with _ | vr
      · rw [hu] at h; exact Option.noConfusion h
      · obtain ⟨v1, r1⟩ := vr
        rw [hu] at h
        have h2 : specTLoop64 f v1 r1 = some (v, r) := h
        show (match specU f ts with
              | some (v2, r2) => specTLoop f v2 r2
              | none => none) = some (v, r)
        rw [ihU ts v1 r1 hu]
        exact ihTL v1 r1 v r h2
    · intro va ts v r h
      cases ts with
      | nil =>
        have he : specELoop64 (f + 1) va [] = some (va, []) := rfl
        rw [he] at h
        simp only [Option.some.injEq, Prod.mk.injEq] at h
        obtain ⟨rfl, rfl⟩ := h
        rfl
      | cons t ts1 =>
        cases t with
        | plus =>
          have he : specELoop64 (f + 1) va (SpecTok.plus :: ts1)
              = (match specT64 f ts1 with
                 | some (v1, r1) =>
                   if repOk (specAdd va v1) then specELoop64 f (specAdd va v1) r1 else none
                 | none => none) := rfl
          rw [he] at h
          rcases hu : specT64 f ts1 with _ | vr
          · rw [hu] at h; exact Option.noConfusion h
          · obtain ⟨v1, r1⟩ := vr
            rw [hu] at h
            have h2 : (if repOk (specAdd va v1)
                then specELoop64 f (specAdd va v1) r1 else none) = some (v, r) := h
            split at h2
            · show (match specT f ts1 with
                    | some (v2, r2) => specELoop f (specAdd va v2) r2
                    | none => none) = some (v, r)
              rw [ihT ts1 v1 r1 hu]
              exact ihEL (specAdd va v1) r1 v r h2
            · exact Option.noConfusion h2
        | minus =>
          have he : specELoop64 (f + 1) va (SpecTok.minus :: ts1)
              = (match specT64 f ts1 with
                 | some (v1, r1) =>
                   if repOk (specSub va v1) then specELoop64 f (specSub va v1) r1 else none
                 | none => none) := rfl
          rw [he] at h
          rcases hu : specT64 f ts1 with _ | vr
          · rw [hu] at h; exact Option.noConfusion h
          · obtain ⟨v1, r1⟩ := vr
            rw [hu] at h
            have h2 : (if repOk (specSub va v1)
                then specELoop64 f (specSub va v1) r1 else none) = some (v, r) := h
            split at h2
            · show (match specT f ts1 with
                    | some (v2, r2) => specELoop f (specSub va v2) r2
                    | none => none) = some (v, r)
              rw [ihT ts1 v1 r1 hu]
              exact ihEL (specSub va v1) r1 v r h2
            · exact Option.noConfusion h2
        | num q0 =>
          have he : specELoop64 (f + 1) va (SpecTok.num q0 :: ts1)
              = some (va, SpecTok.num q0 :: ts1) := rfl
          rw [he] at h
          simp only [Option.some.injEq, Prod.mk.injEq] at h
          obtain ⟨rfl, rfl⟩ := h
          rfl
        | star =>
          have he : specELoop64 (f + 1) va (SpecTok.star :: ts1)
              = some (va, SpecTok.star :: ts1) := rfl
          rw [he] at h
          simp only [Option.some.injEq, Prod.mk.injEq] at h
          obtain ⟨rfl, rfl⟩ := h
          rfl
        | slash =>
          have he : specELoop64 (f + 1) va (SpecTok.slash :: ts1)
              = some (va, SpecTok.slash :: ts1) := rfl
          rw [he] at h
          simp only [Option.some.injEq, Prod.mk.injEq] at h
          obtain ⟨rfl, rfl⟩ := h
          rfl
        | lparen =>
          have he : specELoop64 (f + 1) va (SpecTok.lparen :: ts1)
              = some (va, SpecTok.lparen :: ts1) := rfl
          rw [he] at h
          simp only [Option.some.injEq, Prod.mk.injEq] at h
          obtain ⟨rfl, rfl⟩ := h
          rfl
        | rparen =>
          have he : specELoop64 (f + 1) va (SpecTok.rparen :: ts1)
              = some (va, SpecTok.rparen :: ts1) := rfl
          rw [he] at h
          simp only [Option.some.injEq, Prod.mk.injEq] at h
          obtain ⟨rfl, rfl⟩ := h
          rfl
    · intro ts v r h
      have he : specE64 (f + 1) ts
          = (match specT64 f ts with
             | some (v1, r1) => specELoop64 f v1 r1
             | none => none) := rfl
      rw [he] at h
      rcases hu : specT64 f ts with _ | vr
      · rw [hu] at h; exact Option.noConfusion h
      · obtain ⟨v1, r1⟩ := vr
        rw [hu] at h
        have h2 : specELoop64 f v1 r1 = some (v, r) := h
        show (match specT f ts with
              | some (v2, r2) => specELoop f v2 r2
              | none => none) = some (v, r)
        rw [ihT ts v1 r1 hu]
        exact ihEL v1 r1 v r h2

/-- Claim C3 (amended): for every well-formed arithmetic string of the spec
grammar (digits, +, -, *, /, parentheses, decimal points, whitespace) in
which (a) removing whitespace merges no two tokens — no two identical sign
characters adjacent or separated only by whitespace, no two numerals
separated only by whitespace — and (b) every numeric literal and every
intermediate result is the exact value of a finite IEEE-754 binary64 double,
so that the engine's floating-point evaluation rounds nothing, `tryEvaluate`
returns the exact numeric value of the expression; this covers the claim's
example "3*0.5+3*(-1)" with value -1.5.  The original claim quantified over
all well-formed strings fails: see the counterexample "3 - -2". -/
theorem C3_amended (s : String) (q : ℚ)
    (hspec : specArithValue64 s = some q) (hhaz : noMergeHazard s = true) :
    tryEvaluate s = some q := by
  have hlexE : ∃ ts, specLex s.data = some ts ∧
      specE64 (8 * ts.length + 20) ts = some (some q, []) := by
    unfold specArithValue64 at hspec
    rcases hlex : specLex s.data with _ | ts
    · rw [hlex] at hspec
      exact Option.noConfusion (show (none : Option ℚ) = some q from hspec)
    · rw [hlex] at hspec
      have hspec2 : (match specE64 (8 * ts.length + 20) ts with
          | some (some q2, []) => some q2
          | _ => none) = some q := hspec
      rcases hE : specE64 (8 * ts.length + 20) ts with _ | vr
      · rw [hE] at hspec2
        exact Option.noConfusion (show (none : Option ℚ) = some q from hspec2)
      · obtain ⟨v, r⟩ := vr
        rw [hE] at hspec2
        cases v with
        | none =>
          cases r with
          | nil => exact Option.noConfusion (show (none : Option ℚ) = some q from hspec2)
          | cons t r2 =>
            exact Option.noConfusion (show (none : Option ℚ) = some q from hspec2)
        | some q2 =>
          cases r with
          | nil =>
            have h2 : some q2 = some q := hspec2
            injection h2 with h3
            rw [← h3]
            exact ⟨ts, rfl, hE⟩
          | cons t r2 =>
            exact Option.noConfusion (show (none : Option ℚ) = some q from hspec2)
  obtain ⟨ts, hlex, hE64⟩ := hlexE
  have hE := (spec64_sub (8 * ts.length + 20)).2.2.2.2.2 ts (some q) [] hE64
  have hsv : specArithValue s = some q := by
    unfold specArithValue
    rw [hlex]
    show (match specE (8 * ts.length + 20) ts with
          | some (some q2, []) => some q2
          | _ => none) = some q
    rw [hE]
  exact tryEvaluate_exact_of_hazFree s q hsv hhaz

/-- C3, witness: the claim's own example "3*0.5+3*(-1)" is hazard-free and
binary64-exact, and the amended claim gives its value -1.5. -/
theorem C3_witness :
    specArithValue64 "3*0.5+3*(-1)" = some (-(3 / 2) : ℚ) ∧
    noMergeHazard "3*0.5+3*(-1)" = true ∧
    tryEvaluate "3*0.5+3*(-1)" = some (-(3 / 2) : ℚ) :=
  ⟨by decide!, by decide!, C3_amended "3*0.5+3*(-1)" (-(3 / 2) : ℚ) (by decide!) (by decide!)⟩

/-- C7, witness: the envelope applied to a concrete 405 run. -/
theorem C7_witness :
    ((apiHandler keysEnv { method := "GET", body := none } okOracle).1.error.isSome = true) ∧
    ((apiHandler keysEnv { method := "GET", body := none } okOracle).1.status = 400 ∨
     (apiHandler keysEnv { method := "GET", body := none } okOracle).1.status = 405 ∨
     (apiHandler keysEnv { method := "GET", body := none } okOracle).1.status = 413 ∨
     (apiHandler keysEnv { method := "GET", body := none } okOracle).1.status = 500 ∨
     (apiHandler keysEnv { method := "GET", body := none } okOracle).1.status = 502) :=
  C7_amended.1 keysEnv { method := "GET", body := none } okOracle (by decide)

end EducationalMode
